import Mathlib

/-!
# Verification of the server-authoritative Tetris engine

Shallow embedding of the game core of the `tetris` repository:

* `src/server/util/rng.ts` — the mulberry32 RNG (`createRng`),
* `src/server/state/WorldState.ts` — state creation, reset, spawning,
* `src/server/systems/TetrisSystem.ts` — collision, movement, rotation,
  locking, line clearing, scoring, gravity,
* `src/server/game/GameInstance.ts` — the per-instance orchestrator
  (`handleAction`, `tick`).

Modelling conventions:

* JS numbers holding 32-bit patterns are `Nat` values `< 2^32`, with `>>> 0`
  written as `% 2^32`; the one place a pattern is read back signed
  (the return value of `rng.next()`) converts through `toInt32`.
* Timestamps (`nowMs`, `lastLineClearTimeMs`, `lineClearFxUntilMs`) are `Int`.
* Millisecond accumulators and intervals are `Nat` (the orchestrator clamps
  every delta into `[50, 500]`, so they never go negative in the source).
* Float arithmetic in scoring (`basePoints * (1 + comboCount * 0.1)` followed
  by `Math.round`) is modelled exactly over `ℚ`; on the values the game
  produces the double-precision computation agrees with the exact rational.
* Mutation is explicit state passing: a TS function mutating `state` becomes
  a Lean function returning the new state (paired with its return value).
* The module-global `pieceIdCounter` of `WorldState.ts` is threaded
  explicitly; a piece `id` string `p<n>` is modelled as the `Nat` `n`.
* Render/HUD plumbing (`dirty`, `lastRenderMs`, `pendingPieceLock`,
  `pendingLineClearBurst`, particle emitters) is omitted: it is never read
  by the game-state transition functions embedded here.
-/

namespace Tetris

/-! ## Configuration constants (`src/server/config/tetris.ts`) -/

def BOARD_WIDTH : Nat := 10

def BOARD_HEIGHT : Nat := 20

def SPAWN_X : Int := 3

def SPAWN_Y : Int := 20

def GRAVITY_BASE_MS : Int := 800

def GRAVITY_DECREASE_PER_LEVEL_MS : Int := 60

def GRAVITY_MIN_MS : Int := 100

def SOFT_DROP_INTERVAL_MS : Nat := 50

def LINES_PER_LEVEL : Nat := 10

/-- `SCORE_PER_LINES[n] ?? 0`: the per-clear base score table; any count
outside `{1,2,3,4}` falls back to `0` via the `??` in
`applyLineClearScoring`. -/
def SCORE_PER_LINES (n : Nat) : Nat :=
  if n = 1 then 100 else if n = 2 then 300 else if n = 3 then 500
  else if n = 4 then 800 else 0

def COMBO_WINDOW_MS : Int := 5000

/-- `COMBO_MULTIPLIER_PER_STACK = 0.1`, modelled exactly. -/
def COMBO_MULTIPLIER_PER_STACK : ℚ := 1 / 10

def LINE_CLEAR_FLASH_MS : Int := 180

/-- `WALL_KICK_OFFSETS`: the ordered wall-kick table. -/
def WALL_KICK_OFFSETS : List (Int × Int) :=
  [(0, 0), (1, 0), (-1, 0), (2, 0), (-2, 0), (0, -1)]

/-! ## Deterministic RNG (`src/server/util/rng.ts`) -/

/-- `x >>> 0`. -/
def toUint32 (n : Nat) : Nat := n % 4294967296

/-- Reading a 32-bit pattern as a signed (`ToInt32`) JS number. -/
def toInt32 (n : Nat) : Int :=
  let u := n % 4294967296
  if u < 2147483648 then (u : Int) else (u : Int) - 4294967296

/-- One step of the source's mulberry32 `next()`: returns the new internal
state together with the signed 32-bit numerator `r` of the returned float
`r / 2^32`.  The source lacks the usual final `>>> 0`, so `t ^ (t >>> 14)`
is read back as a *signed* 32-bit value and `next()` can return negative
floats; we keep that faithfully. -/
def mulberryNext (state : Nat) : Nat × Int :=
  let s := toUint32 (state + 0x6d2b79f5)
  let t1 := toUint32 ((s ^^^ (s >>> 15)) * (s ||| 1))
  let t2 := toUint32 (t1 + toUint32 ((t1 ^^^ (t1 >>> 7)) * (t1 ||| 61)))
  (s, toInt32 (t2 ^^^ (t2 >>> 14)))

/-! ## State types (`src/server/state/types.ts`) -/

inductive GameStatus where
  | RUNNING
  | GAME_OVER
deriving DecidableEq, Repr

/-- `PieceState`.  The source's string id `p<n>` is modelled as the `Nat`
`n` drawn from the global `pieceIdCounter`. -/
structure PieceState where
  id : Nat
  type : Nat
  rotation : Nat
  x : Int
  y : Int
deriving DecidableEq, Repr

/-- `BoardGrid`: `board[y][x]`, row-major, `0` empty, `1..7` locked kind. -/
abbrev BoardGrid : Type := List (List Nat)

structure TetrisState where
  gameStatus : GameStatus
  board : BoardGrid
  activePiece : Option PieceState
  nextPiece : Option PieceState
  score : Nat
  level : Nat
  lines : Nat
  gravityAccumulatorMs : Nat
  gravityIntervalMs : Nat
  softDropActive : Bool
  seed : Nat
  rngState : Nat
  lastLinesCleared : Nat
  lastLineClearTimeMs : Int
  comboCount : Nat
  lineClearFxRows : Option (List Nat)
  lineClearFxUntilMs : Int
deriving DecidableEq, Repr

/-! ## World state (`src/server/state/WorldState.ts`) -/

/-- `randomPieceType`: `floor(rng() * 7)` with the negative-safe clamp
`((n % 7) + 7) % 7`, then `+ 1`.  `r` is the signed numerator of the float
`r / 2^32` returned by `rng()`; `rng() * 7` is exact in doubles, so
`Math.floor` is `Int.fdiv` on the exact rational, and the JS `%` (remainder
with the dividend's sign) is `Int.tmod`. -/
def randomPieceType (r : Int) : Nat :=
  let n : Int := Int.fdiv (7 * r) 4294967296
  let clamped : Int := ((n.tmod 7) + 7).tmod 7
  clamped.toNat + 1

/-- `createPiece`: allocates the next id from the global counter. -/
def createPiece (type : Nat) (x y : Int) (cnt : Nat) : PieceState × Nat :=
  (⟨cnt + 1, type, 0, x, y⟩, cnt + 1)

/-- `createNextPiece`. -/
def createNextPiece (type : Nat) (cnt : Nat) : PieceState × Nat :=
  createPiece type 0 0 cnt

/-- `createEmptyBoard`. -/
def createEmptyBoard : BoardGrid :=
  List.replicate BOARD_HEIGHT (List.replicate BOARD_WIDTH 0)

/-- `createInitialState(seed)` (the seeded path; the claims under study
always supply a seed, so the `Math.random()` fallback is out of scope).
Returns the state together with the advanced piece-id counter. -/
def createInitialState (seed : Nat) (cnt : Nat) : TetrisState × Nat :=
  let (r1, d1) := mulberryNext seed
  let firstType := randomPieceType d1
  let (activePiece, cnt1) := createPiece firstType SPAWN_X SPAWN_Y cnt
  let (r2, d2) := mulberryNext r1
  let secondType := randomPieceType d2
  let (nextPiece, cnt2) := createNextPiece secondType cnt1
  (⟨GameStatus.RUNNING, createEmptyBoard, some activePiece, some nextPiece,
    0, 1, 0, 0, 800, false, seed, r2, 0, 0, 0, none, 0⟩, cnt2)

/-- `resetState(state, seed?)`: copies every field of a freshly created
state (with `softDropActive` forced to `false`, which the fresh state
already has). -/
def resetState (s : TetrisState) (seed : Option Nat) (cnt : Nat) :
    TetrisState × Nat :=
  createInitialState (seed.getD s.seed) cnt

/-- `spawnNextPiece(state, rng)`: promote the look-ahead (drawing one if it
is missing), place the new active piece at the spawn point, and draw a
fresh look-ahead.  Returns the spawned piece, the new state, the advanced
RNG state and the advanced id counter. -/
def spawnNextPiece (s : TetrisState) (r : Nat) (cnt : Nat) :
    Option PieceState × TetrisState × Nat × Nat :=
  let (next, s, r, cnt) :=
    match s.nextPiece with
    | some n => (n, s, r, cnt)
    | none =>
      let (r1, d1) := mulberryNext r
      let (np, cnt1) := createNextPiece (randomPieceType d1) cnt
      (np, { s with nextPiece := some np }, r1, cnt1)
  let type := if 1 ≤ next.type ∧ next.type ≤ 7 then next.type else 1
  let (active, cnt2) := createPiece type SPAWN_X SPAWN_Y cnt
  let (r2, d2) := mulberryNext r
  let (np2, cnt3) := createNextPiece (randomPieceType d2) cnt2
  let s := { s with nextPiece := some np2, activePiece := some active }
  (some active, s, r2, cnt3)

/-! ## Rule engine (`src/server/systems/TetrisSystem.ts`) -/

/-- The `SHAPES` table: `SHAPES[type][rotation]`, a 4x4 occupancy mask
(`[localY][localX]`, `1` = filled).  Arguments are already clamped
(`type ∈ 1..7`, `rotation ∈ 0..3`); other inputs never occur. -/
def shapeAt (t r : Nat) : List (List Nat) :=
  match t, r with
  | 1, 0 => [[0,0,0,0],[1,1,1,1],[0,0,0,0],[0,0,0,0]]
  | 1, 1 => [[0,1,0,0],[0,1,0,0],[0,1,0,0],[0,1,0,0]]
  | 1, 2 => [[0,0,0,0],[1,1,1,1],[0,0,0,0],[0,0,0,0]]
  | 1, 3 => [[0,0,1,0],[0,0,1,0],[0,0,1,0],[0,0,1,0]]
  | 2, 0 => [[0,1,1,0],[0,1,1,0],[0,0,0,0],[0,0,0,0]]
  | 2, 1 => [[0,1,1,0],[0,1,1,0],[0,0,0,0],[0,0,0,0]]
  | 2, 2 => [[0,1,1,0],[0,1,1,0],[0,0,0,0],[0,0,0,0]]
  | 2, 3 => [[0,1,1,0],[0,1,1,0],[0,0,0,0],[0,0,0,0]]
  | 3, 0 => [[0,1,0,0],[1,1,1,0],[0,0,0,0],[0,0,0,0]]
  | 3, 1 => [[0,1,0,0],[0,1,1,0],[0,1,0,0],[0,0,0,0]]
  | 3, 2 => [[0,0,0,0],[1,1,1,0],[0,1,0,0],[0,0,0,0]]
  | 3, 3 => [[0,1,0,0],[1,1,0,0],[0,1,0,0],[0,0,0,0]]
  | 4, 0 => [[0,1,1,0],[1,1,0,0],[0,0,0,0],[0,0,0,0]]
  | 4, 1 => [[0,1,0,0],[0,1,1,0],[0,0,1,0],[0,0,0,0]]
  | 4, 2 => [[0,0,0,0],[0,1,1,0],[1,1,0,0],[0,0,0,0]]
  | 4, 3 => [[1,0,0,0],[1,1,0,0],[0,1,0,0],[0,0,0,0]]
  | 5, 0 => [[1,1,0,0],[0,1,1,0],[0,0,0,0],[0,0,0,0]]
  | 5, 1 => [[0,0,1,0],[0,1,1,0],[0,1,0,0],[0,0,0,0]]
  | 5, 2 => [[0,0,0,0],[1,1,0,0],[0,1,1,0],[0,0,0,0]]
  | 5, 3 => [[0,1,0,0],[1,1,0,0],[1,0,0,0],[0,0,0,0]]
  | 6, 0 => [[1,0,0,0],[1,1,1,0],[0,0,0,0],[0,0,0,0]]
  | 6, 1 => [[0,1,1,0],[0,1,0,0],[0,1,0,0],[0,0,0,0]]
  | 6, 2 => [[0,0,0,0],[1,1,1,0],[0,0,1,0],[0,0,0,0]]
  | 6, 3 => [[0,1,0,0],[0,1,0,0],[0,1,1,0],[0,0,0,0]]
  | 7, 0 => [[0,0,1,0],[1,1,1,0],[0,0,0,0],[0,0,0,0]]
  | 7, 1 => [[0,1,0,0],[0,1,0,0],[0,1,1,0],[0,0,0,0]]
  | 7, 2 => [[0,0,0,0],[1,1,1,0],[1,0,0,0],[0,0,0,0]]
  | 7, 3 => [[0,1,1,0],[0,1,0,0],[0,1,0,0],[0,0,0,0]]
  | _, _ => []

/-- The `(lx, ly)` local coordinates visited with `shape[ly][lx]` set, in
the source's iteration order (`ly` outer, `lx` inner). -/
def cellsLocal (t r : Nat) : List (Nat × Nat) :=
  let shape := shapeAt t r
  ((List.range 4).map fun ly =>
    (List.range 4).filterMap fun lx =>
      if (shape.getD ly []).getD lx 0 ≠ 0 then some (lx, ly) else none).flatten

/-- `getPieceCells`: world `(x, y)` cells occupied by the piece, after the
source's type clamp and `rotation % 4`. -/
def getPieceCells (p : PieceState) : List (Int × Int) :=
  let type := if 1 ≤ p.type ∧ p.type ≤ 7 then p.type else 1
  (cellsLocal type (p.rotation % 4)).map fun c =>
    ((p.x + (c.1 : Int), p.y + (c.2 : Int)) : Int × Int)

/-- `board[y][x]` for in-range accesses; out-of-range reads default to `0`
(the source only reads the board at already-bounds-checked indices). -/
def cellAt (b : BoardGrid) (y x : Int) : Nat :=
  (b.getD y.toNat []).getD x.toNat 0

/-- `collides`. -/
def collides (b : BoardGrid) (p : PieceState) : Bool :=
  (getPieceCells p).any fun c =>
    decide (c.1 < 0) || decide ((BOARD_WIDTH : Int) ≤ c.1) || decide (c.2 < 0) ||
      (decide (c.2 < (BOARD_HEIGHT : Int)) && decide (cellAt b c.2 c.1 ≠ 0))

/-- `stackReachedTop`: any non-empty cell in the topmost playable row. -/
def stackReachedTop (b : BoardGrid) : Bool :=
  let topRow := b.getD (BOARD_HEIGHT - 1) []
  (List.range BOARD_WIDTH).any fun x => decide (topRow.getD x 0 ≠ 0)

/-- The candidate piece `{ ...p, x: p.x + dx, y: p.y + dy }` of `tryMove`. -/
def movedPiece (p : PieceState) (dx dy : Int) : PieceState :=
  { p with x := p.x + dx, y := p.y + dy }

/-- `tryMove`. -/
def tryMove (s : TetrisState) (dx dy : Int) : Bool × TetrisState :=
  match s.activePiece with
  | none => (false, s)
  | some p =>
    if s.gameStatus ≠ GameStatus.RUNNING then (false, s)
    else if collides s.board (movedPiece p dx dy) then (false, s)
    else (true, { s with activePiece := some (movedPiece p dx dy) })

/-- The candidate piece of one wall-kick attempt in `tryRotate`. -/
def kickedPiece (p : PieceState) (nextRotation : Nat) (dx dy : Int) :
    PieceState :=
  { p with rotation := nextRotation, x := p.x + dx, y := p.y + dy }

/-- The wall-kick loop of `tryRotate`: try each offset in order, accept the
first whose kicked piece does not collide. -/
def tryKicks (s : TetrisState) (p : PieceState) (nextRotation : Nat) :
    List (Int × Int) → Bool × TetrisState
  | [] => (false, s)
  | (dx, dy) :: rest =>
    if collides s.board (kickedPiece p nextRotation dx dy) then
      tryKicks s p nextRotation rest
    else (true, { s with activePiece := some (kickedPiece p nextRotation dx dy) })

/-- `tryRotate`. -/
def tryRotate (s : TetrisState) : Bool × TetrisState :=
  match s.activePiece with
  | none => (false, s)
  | some p =>
    if s.gameStatus ≠ GameStatus.RUNNING then (false, s)
    else tryKicks s p ((p.rotation + 1) % 4) WALL_KICK_OFFSETS

/-- `softDrop`. -/
def softDrop (s : TetrisState) : Bool × TetrisState :=
  tryMove s 0 (-1)

structure LineClearResult where
  linesCleared : Nat
  points : Nat
deriving DecidableEq, Repr

/-- `findFullRows`. -/
def findFullRows (b : BoardGrid) : List Nat :=
  (List.range BOARD_HEIGHT).filter fun y =>
    decide ((b.getD y []).length = BOARD_WIDTH) &&
      (b.getD y []).all fun c => decide (c ≠ 0)

/-- `Math.round` on the exact rational value (round half toward `+∞`). -/
def roundQ (q : ℚ) : Int := ⌊q + 1 / 2⌋

/-- `clampGravityMs` (`src/server/util/time.ts`):
`Math.max(minMs, Math.min(maxMs, Math.round(ms)))`; every call site passes
integers, so `Math.round` is the identity. -/
def clampGravityMs (ms minMs maxMs : Int) : Int :=
  max minMs (min maxMs ms)

/-- `applyLineClearScoring`: combo bookkeeping, points, lines, level and
(on level-up) the gravity interval.  Returns `(points, state)`. -/
def applyLineClearScoring (s : TetrisState) (fullRowsCount : Nat)
    (nowMs : Int) : Nat × TetrisState :=
  let inWindow :=
    s.lastLineClearTimeMs > 0 ∧ nowMs - s.lastLineClearTimeMs ≤ COMBO_WINDOW_MS
  let newComboCount := if inWindow then s.comboCount + 1 else 0
  let s := { s with lastLineClearTimeMs := nowMs, comboCount := newComboCount }
  let basePoints := SCORE_PER_LINES fullRowsCount
  let multiplier : ℚ := 1 + (newComboCount : ℚ) * COMBO_MULTIPLIER_PER_STACK
  let points : Nat := (roundQ ((basePoints : ℚ) * multiplier)).toNat
  let s := { s with score := s.score + points, lines := s.lines + fullRowsCount }
  let levelBefore := s.level
  let s := { s with level := s.lines / LINES_PER_LEVEL + 1 }
  let s :=
    if s.level > levelBefore then
      { s with gravityIntervalMs :=
          (clampGravityMs
            (GRAVITY_BASE_MS - (s.level : Int) * GRAVITY_DECREASE_PER_LEVEL_MS)
            GRAVITY_MIN_MS GRAVITY_BASE_MS).toNat }
    else s
  (points, s)

/-- `finalizeLineClear`: remove the recorded rows highest-index first
(splice), push a fresh empty row at the top for each removal, and clear the
pending record.  The recorded rows come from `findFullRows`, hence are
natural numbers, so only the `row >= BOARD_HEIGHT` half of the source's
range guard remains. -/
def finalizeLineClear (s : TetrisState) : TetrisState :=
  match s.lineClearFxRows with
  | none => s
  | some rows =>
    if rows = [] then s
    else
      let sorted := rows.mergeSort fun a b => decide (b ≤ a)
      let board := sorted.foldl
        (fun (b : BoardGrid) row =>
          if BOARD_HEIGHT ≤ row then b
          else (b.eraseIdx row) ++ [List.replicate BOARD_WIDTH 0]) s.board
      let board :=
        board ++ List.replicate (BOARD_HEIGHT - board.length)
          (List.replicate BOARD_WIDTH 0)
      { s with board := board, lineClearFxRows := none, lineClearFxUntilMs := 0 }

/-- `board[y][x] = v` on an in-range cell. -/
def updateCell (b : BoardGrid) (y x : Nat) (v : Nat) : BoardGrid :=
  b.set y ((b.getD y []).set x v)

/-- `mergeAndClearLines`: merge the active piece into the board, record
`lastLinesCleared`, and on a non-empty clear apply scoring and start the
flash (deferring row removal and spawn). -/
def mergeAndClearLines (s : TetrisState) (nowMs : Int) :
    LineClearResult × TetrisState :=
  match s.activePiece with
  | none => (⟨0, 0⟩, s)
  | some p =>
    let board := (getPieceCells p).foldl
      (fun (b : BoardGrid) c =>
        if 0 ≤ c.2 ∧ c.2 < (BOARD_HEIGHT : Int) ∧ 0 ≤ c.1 ∧ c.1 < (BOARD_WIDTH : Int)
        then updateCell b c.2.toNat c.1.toNat p.type
        else b) s.board
    let s := { s with board := board, activePiece := none }
    let fullRows := findFullRows s.board
    let s := { s with lastLinesCleared := fullRows.length }
    if fullRows = [] then (⟨0, 0⟩, s)
    else
      let (points, s) := applyLineClearScoring s fullRows.length nowMs
      let s := { s with lineClearFxRows := some fullRows,
                        lineClearFxUntilMs := nowMs + LINE_CLEAR_FLASH_MS }
      (⟨fullRows.length, points⟩, s)

/-- `lockPiece`: merge and clear, reset the gravity accumulator, then
either defer to the flash, detect game over, or spawn the next piece. -/
def lockPiece (s : TetrisState) (r cnt : Nat) (nowMs : Int) :
    LineClearResult × TetrisState × Nat × Nat :=
  let (result, s) := mergeAndClearLines s nowMs
  let s := { s with gravityAccumulatorMs := 0 }
  if (s.lineClearFxRows.getD []) ≠ [] then (result, s, r, cnt)
  else if stackReachedTop s.board then
    (result, { s with gameStatus := GameStatus.GAME_OVER, activePiece := none },
      r, cnt)
  else
    let (spawned, s, r, cnt) := spawnNextPiece s r cnt
    match spawned with
    | some pc =>
      if collides s.board pc then
        (result,
          { s with gameStatus := GameStatus.GAME_OVER, activePiece := none },
          r, cnt)
      else (result, s, r, cnt)
    | none => (result, s, r, cnt)

/-! ### Termination of the descent loops

Every shape rotation occupies at least one cell, so a piece whose downward
move succeeds (does not collide) sits at `y ≥ -2`; its `y` therefore acts
as a well-founded measure for the `while (tryMove(state, 0, -1))` loops in
`hardDrop` and `tickGravity`. -/

theorem cellsLocal_ne_nil {t r : Nat} (ht1 : 1 ≤ t) (ht7 : t ≤ 7)
    (hr : r < 4) : cellsLocal t r ≠ [] := by
  interval_cases t <;> interval_cases r <;> decide

theorem cellsLocal_lt {t r : Nat} {c : Nat × Nat} (h : c ∈ cellsLocal t r) :
    c.1 < 4 ∧ c.2 < 4 := by
  unfold cellsLocal at h
  rw [List.mem_flatten] at h
  obtain ⟨l, hl, hcl⟩ := h
  rw [List.mem_map] at hl
  obtain ⟨ly, hly, rfl⟩ := hl
  rw [List.mem_filterMap] at hcl
  obtain ⟨lx, hlx, hc⟩ := hcl
  rw [List.mem_range] at hly hlx
  by_cases hnz : ((shapeAt t r).getD ly []).getD lx 0 ≠ 0
  · rw [if_pos hnz] at hc
    injection hc with hc
    subst hc
    exact ⟨hlx, hly⟩
  · rw [if_neg hnz] at hc
    cases hc

theorem getPieceCells_ne_nil (p : PieceState) : getPieceCells p ≠ [] := by
  unfold getPieceCells
  intro hmap
  rw [List.map_eq_nil_iff] at hmap
  revert hmap
  split
  · next h => exact cellsLocal_ne_nil h.1 h.2 (Nat.mod_lt _ (by norm_num))
  · exact cellsLocal_ne_nil (by norm_num) (by norm_num)
      (Nat.mod_lt _ (by norm_num))

theorem getPieceCells_y_bounds {p : PieceState} {c : Int × Int}
    (h : c ∈ getPieceCells p) : p.y ≤ c.2 ∧ c.2 ≤ p.y + 3 := by
  simp only [getPieceCells, List.mem_map] at h
  obtain ⟨lc, hlc, rfl⟩ := h
  have := cellsLocal_lt hlc
  simp only
  omega

/-- A non-colliding piece has all cells at `y ≥ 0`, so its anchor sits at
`y ≥ -3`. -/
theorem not_collides_y_lb {b : BoardGrid} {p : PieceState}
    (h : collides b p = false) : -3 ≤ p.y := by
  obtain ⟨c, hc⟩ := List.exists_mem_of_ne_nil _ (getPieceCells_ne_nil p)
  have hcell := (List.any_eq_false.mp h) c hc
  simp only [Bool.or_eq_true, decide_eq_true_eq, Bool.and_eq_true, not_or,
    Bool.not_eq_true] at hcell
  have hy := getPieceCells_y_bounds hc
  have hc2 : ¬ c.2 < 0 := hcell.1.2
  omega

theorem tryMove_down_success {s s' : TetrisState}
    (h : tryMove s 0 (-1) = (true, s')) :
    ∃ p q, s.activePiece = some p ∧ s'.activePiece = some q ∧
      q.y = p.y - 1 ∧ -2 ≤ p.y := by
  unfold tryMove at h
  split at h
  · exact absurd (congrArg Prod.fst h) (by simp)
  next p hp =>
    split at h
    · exact absurd (congrArg Prod.fst h) (by simp)
    · split at h
      · exact absurd (congrArg Prod.fst h) (by simp)
      next hcol =>
        have hcf : collides s.board (movedPiece p 0 (-1)) = false := by
          simpa using hcol
        have hylb := not_collides_y_lb hcf
        have hs' : s' = { s with activePiece := some (movedPiece p 0 (-1)) } :=
          (congrArg Prod.snd h).symm
        refine ⟨p, movedPiece p 0 (-1), hp, ?_, ?_, ?_⟩
        · rw [hs']
        · simp only [movedPiece]
          omega
        · simp only [movedPiece] at hylb
          omega

/-- Measure for the descent loops. -/
def pieceMeasure (s : TetrisState) : Nat :=
  match s.activePiece with
  | some p => (p.y + 4).toNat
  | none => 0

theorem tryMove_down_measure {s s' : TetrisState}
    (h : tryMove s 0 (-1) = (true, s')) : pieceMeasure s' < pieceMeasure s := by
  obtain ⟨p, q, hp, hq, hqy, hy⟩ := tryMove_down_success h
  simp only [pieceMeasure, hp, hq]
  omega

/-- Fueled form of the `while (tryMove(state, 0, -1))` descent of
`hardDrop`; `pieceMeasure` strictly decreases across an iteration, so
`pieceMeasure s + 1` units of fuel compute the exact while-loop
(theorems `hardLoopF_fuel` and `hardLoop_eq`). -/
def hardLoopF : Nat → TetrisState → TetrisState
  | 0, s => s
  | fuel + 1, s =>
    match tryMove s 0 (-1) with
    | (true, s') => hardLoopF fuel s'
    | (false, _) => s

/-- The `while (tryMove(state, 0, -1))` descent of `hardDrop`. -/
def hardLoop (s : TetrisState) : TetrisState :=
  hardLoopF (pieceMeasure s + 1) s

theorem hardLoopF_fuel : ∀ (fuel : Nat) (s : TetrisState),
    pieceMeasure s < fuel → hardLoopF fuel s = hardLoopF (pieceMeasure s + 1) s := by
  intro fuel
  induction fuel using Nat.strong_induction_on with
  | _ fuel ih =>
    intro s h
    cases fuel with
    | zero => exact absurd h (Nat.not_lt_zero _)
    | succ f =>
      show (match tryMove s 0 (-1) with
            | (true, s') => hardLoopF f s'
            | (false, _) => s) =
          (match tryMove s 0 (-1) with
            | (true, s') => hardLoopF (pieceMeasure s) s'
            | (false, _) => s)
      rcases htm : tryMove s 0 (-1) with ⟨b, s'⟩
      cases b
      · rfl
      · show hardLoopF f s' = hardLoopF (pieceMeasure s) s'
        have hlt := tryMove_down_measure htm
        rw [ih f (Nat.lt_succ_self f) s' (by omega),
          ih (pieceMeasure s) h s' hlt]

/-- `hardLoop` satisfies the source's while-loop unfolding. -/
theorem hardLoop_eq (s : TetrisState) :
    hardLoop s =
      match tryMove s 0 (-1) with
      | (true, s') => hardLoop s'
      | (false, _) => s := by
  show (match tryMove s 0 (-1) with
        | (true, s') => hardLoopF (pieceMeasure s) s'
        | (false, _) => s) = _
  rcases htm : tryMove s 0 (-1) with ⟨b, s'⟩
  cases b
  · rfl
  · show hardLoopF (pieceMeasure s) s' = hardLoop s'
    exact hardLoopF_fuel (pieceMeasure s) s' (tryMove_down_measure htm)

/-- `hardDrop`: descend until blocked, then lock. -/
def hardDrop (s : TetrisState) (r cnt : Nat) (nowMs : Int) :
    LineClearResult × TetrisState × Nat × Nat :=
  match s.activePiece with
  | none => (⟨0, 0⟩, s, r, cnt)
  | some _ =>
    if s.gameStatus ≠ GameStatus.RUNNING then (⟨0, 0⟩, s, r, cnt)
    else lockPiece (hardLoop s) r cnt nowMs

/-- Fueled form of the `while (accumulator ≥ interval)` loop of
`tickGravity`: subtract the interval, try one downward move; on failure
lock and stop.  As with `hardLoopF`, `pieceMeasure s + 1` units of fuel
compute the exact while-loop. -/
def gravLoopF : Nat → TetrisState → Nat → Nat → Nat → Int →
    Option LineClearResult × TetrisState × Nat × Nat
  | 0, s, _, r, cnt, _ => (none, s, r, cnt)
  | fuel + 1, s, interval, r, cnt, nowMs =>
    if interval ≤ s.gravityAccumulatorMs then
      let s1 := { s with gravityAccumulatorMs := s.gravityAccumulatorMs - interval }
      match tryMove s1 0 (-1) with
      | (true, s2) => gravLoopF fuel s2 interval r cnt nowMs
      | (false, _) =>
        let (res, s3, r3, cnt3) := lockPiece s1 r cnt nowMs
        (some res, s3, r3, cnt3)
    else (none, s, r, cnt)

/-- The `while (accumulator ≥ interval)` loop of `tickGravity`. -/
def gravLoop (s : TetrisState) (interval : Nat) (r cnt : Nat) (nowMs : Int) :
    Option LineClearResult × TetrisState × Nat × Nat :=
  gravLoopF (pieceMeasure s + 1) s interval r cnt nowMs

theorem gravLoopF_fuel : ∀ (fuel : Nat) (s : TetrisState)
    (interval r cnt : Nat) (nowMs : Int), pieceMeasure s < fuel →
    gravLoopF fuel s interval r cnt nowMs =
      gravLoopF (pieceMeasure s + 1) s interval r cnt nowMs := by
  intro fuel
  induction fuel using Nat.strong_induction_on with
  | _ fuel ih =>
    intro s interval r cnt nowMs h
    cases fuel with
    | zero => exact absurd h (Nat.not_lt_zero _)
    | succ f =>
      show (if interval ≤ s.gravityAccumulatorMs then _ else _) =
        (if interval ≤ s.gravityAccumulatorMs then _ else _)
      by_cases hacc : interval ≤ s.gravityAccumulatorMs
      · rw [if_pos hacc, if_pos hacc]
        rcases htm : tryMove
            { s with gravityAccumulatorMs := s.gravityAccumulatorMs - interval }
            0 (-1) with ⟨b, s2⟩
        simp only [htm]
        cases b
        · rfl
        · show gravLoopF f s2 interval r cnt nowMs =
            gravLoopF (pieceMeasure s) s2 interval r cnt nowMs
          have hlt := tryMove_down_measure htm
          have heq : pieceMeasure
              { s with gravityAccumulatorMs := s.gravityAccumulatorMs - interval } =
              pieceMeasure s := rfl
          rw [ih f (Nat.lt_succ_self f) s2 interval r cnt nowMs (by omega),
            ih (pieceMeasure s) h s2 interval r cnt nowMs (by omega)]
      · rw [if_neg hacc, if_neg hacc]

/-- `gravLoop` satisfies the source's while-loop unfolding. -/
theorem gravLoop_eq (s : TetrisState) (interval r cnt : Nat) (nowMs : Int) :
    gravLoop s interval r cnt nowMs =
      if interval ≤ s.gravityAccumulatorMs then
        match tryMove
            { s with gravityAccumulatorMs := s.gravityAccumulatorMs - interval }
            0 (-1) with
        | (true, s2) => gravLoop s2 interval r cnt nowMs
        | (false, _) =>
          let (res, s3, r3, cnt3) := lockPiece
            { s with gravityAccumulatorMs := s.gravityAccumulatorMs - interval }
            r cnt nowMs
          (some res, s3, r3, cnt3)
      else (none, s, r, cnt) := by
  show (if interval ≤ s.gravityAccumulatorMs then _ else _) = _
  by_cases hacc : interval ≤ s.gravityAccumulatorMs
  · rw [if_pos hacc, if_pos hacc]
    rcases htm : tryMove
        { s with gravityAccumulatorMs := s.gravityAccumulatorMs - interval }
        0 (-1) with ⟨b, s2⟩
    simp only [htm]
    cases b
    · rfl
    · show gravLoopF (pieceMeasure s) s2 interval r cnt nowMs =
        gravLoop s2 interval r cnt nowMs
      have hlt := tryMove_down_measure htm
      have heq : pieceMeasure
          { s with gravityAccumulatorMs := s.gravityAccumulatorMs - interval } =
          pieceMeasure s := rfl
      exact gravLoopF_fuel (pieceMeasure s) s2 interval r cnt nowMs (by omega)
  · rw [if_neg hacc, if_neg hacc]

/-- `tickGravity`. -/
def tickGravity (s : TetrisState) (deltaMs : Nat) (r cnt : Nat)
    (nowMs : Int) : Option LineClearResult × TetrisState × Nat × Nat :=
  if s.gameStatus ≠ GameStatus.RUNNING ∨ s.activePiece = none then
    (none, s, r, cnt)
  else
    let interval :=
      if s.softDropActive then SOFT_DROP_INTERVAL_MS else s.gravityIntervalMs
    let s := { s with gravityAccumulatorMs := s.gravityAccumulatorMs + deltaMs }
    gravLoop s interval r cnt nowMs

/-- `forceNextPiece` (the `/spawn` debug command). -/
def forceNextPiece (s : TetrisState) (pieceType : Nat) (cnt : Nat) :
    TetrisState × Nat :=
  let (np, cnt1) := createNextPiece pieceType cnt
  ({ s with nextPiece := some np }, cnt1)

/-- `fillRow` (the `/fillrow` debug command): writes `1` into the first
`BOARD_WIDTH` cells of row `y`. -/
def fillRow (s : TetrisState) (y : Int) : TetrisState :=
  if y < 0 ∨ (BOARD_HEIGHT : Int) ≤ y then s
  else
    let board := (List.range BOARD_WIDTH).foldl
      (fun b x => updateCell b y.toNat x 1) s.board
    { s with board := board }

/-! ## Per-instance orchestrator (`src/server/game/GameInstance.ts`)

`GameInstance` holds the authoritative `TetrisState` plus the
`gameStarted` flag; the global `pieceIdCounter` is carried alongside.
`Date.now()` becomes the explicit `nowMs` argument. -/

inductive InputAction where
  | start
  | left
  | right
  | rotate
  | softDropDown
  | softDropUp
  | hardDrop
  | reset
deriving DecidableEq, Repr

structure GameInstance where
  state : TetrisState
  gameStarted : Bool
  counter : Nat
deriving DecidableEq, Repr

/-- The `GameInstance` constructor (state from `createInitialState(seed)`,
`gameStarted = false`). -/
def mkInstance (seed : Nat) (cnt : Nat) : GameInstance :=
  let (s, cnt1) := createInitialState seed cnt
  ⟨s, false, cnt1⟩

/-- `setGameStarted` (invoked by the driver when the player sends
`start`). -/
def setGameStarted (i : GameInstance) : GameInstance :=
  { i with gameStarted := true }

/-- `getRngSeed`: `state.rngState` when it is a finite number — which it
always is in this model — else `state.seed`. -/
def getRngSeed (s : TetrisState) : Nat :=
  s.rngState

/-- `GameInstance.handleAction`. -/
def handleAction (i : GameInstance) (action : Option InputAction)
    (softDropActive : Bool) (nowMs : Int) : GameInstance :=
  let s := { i.state with softDropActive := softDropActive }
  if action = some InputAction.reset then
    let (s1, cnt1) := resetState s none i.counter
    ⟨s1, false, cnt1⟩
  else if (s.lineClearFxRows.getD []) ≠ [] then { i with state := s }
  else if s.gameStatus ≠ GameStatus.RUNNING ∨ action = none ∨
      action = some InputAction.start then
    { i with state := s }
  else
    match action with
    | some InputAction.left => { i with state := (tryMove s (-1) 0).2 }
    | some InputAction.right => { i with state := (tryMove s 1 0).2 }
    | some InputAction.rotate => { i with state := (tryRotate s).2 }
    | some InputAction.hardDrop =>
      let (_, s1, r1, cnt1) := hardDrop s (getRngSeed s) i.counter nowMs
      ⟨{ s1 with rngState := r1 }, i.gameStarted, cnt1⟩
    | _ => { i with state := s }

/-- One spawn attempt of `GameInstance.tick`: `stackReachedTop` game-over
check, then `spawnNextPiece` with the immediate-collision game-over
check. -/
def tickSpawn (s : TetrisState) (r cnt : Nat) : TetrisState × Nat × Nat :=
  if stackReachedTop s.board then
    ({ s with gameStatus := GameStatus.GAME_OVER }, r, cnt)
  else
    let (_, s1, r1, cnt1) := spawnNextPiece s r cnt
    match s1.activePiece with
    | some p =>
      if collides s1.board p then
        ({ s1 with gameStatus := GameStatus.GAME_OVER, activePiece := none },
          r1, cnt1)
      else (s1, r1, cnt1)
    | none => (s1, r1, cnt1)

/-- Spawn-if-missing phase of `GameInstance.tick` (threading
`(state, rngState, counter)`). -/
def phaseSpawn (t : TetrisState × Nat × Nat) : TetrisState × Nat × Nat :=
  if t.1.gameStatus = GameStatus.RUNNING ∧ t.1.activePiece = none then
    tickSpawn t.1 t.2.1 t.2.2
  else t

/-- The per-tick soft-drop extra downward move of `GameInstance.tick`. -/
def phaseSoft (t : TetrisState × Nat × Nat) : TetrisState × Nat × Nat :=
  (if t.1.gameStatus = GameStatus.RUNNING ∧ t.1.activePiece ≠ none ∧
      t.1.softDropActive then
    (tryMove t.1 0 (-1)).2
  else t.1, t.2)

/-- The accumulator priming of `GameInstance.tick`: when the accumulator
is zero, preload it with one interval so the first drop is immediate. -/
def phasePrime (t : TetrisState × Nat × Nat) : TetrisState × Nat × Nat :=
  (if t.1.activePiece ≠ none ∧ t.1.gravityAccumulatorMs = 0 then
    { t.1 with gravityAccumulatorMs :=
        if t.1.softDropActive then 50 else t.1.gravityIntervalMs }
  else t.1, t.2)

/-- The gravity phase of `GameInstance.tick`: clamp the delta into
`[50, 500]`, run `tickGravity`, persist the RNG state. -/
def phaseGravity (deltaMs : Nat) (nowMs : Int) (t : TetrisState × Nat × Nat) :
    TetrisState × Nat × Nat :=
  let g := tickGravity t.1 (min 500 (max 50 deltaMs)) t.2.1 t.2.2 nowMs
  ({ g.2.1 with rngState := g.2.2.1 }, g.2.2.1, g.2.2.2)

/-- The emergency respawn of `GameInstance.tick` (also persists the RNG
state right after spawning). -/
def phaseEmergency (t : TetrisState × Nat × Nat) : TetrisState × Nat × Nat :=
  if t.1.gameStatus = GameStatus.RUNNING ∧ t.1.activePiece = none then
    let u := tickSpawn t.1 t.2.1 t.2.2
    ({ u.1 with rngState := u.2.1 }, u.2.1, u.2.2)
  else t

/-- The body of `GameInstance.tick` after the flash window has been
handled: spawn if missing, per-tick soft drop, gravity (with accumulator
priming and RNG persistence), then the emergency spawn. -/
def tickMain (i : GameInstance) (deltaMs : Nat) (nowMs : Int) :
    GameInstance :=
  let t := phaseEmergency (phaseGravity deltaMs nowMs
    (phasePrime (phaseSoft (phaseSpawn
      (i.state, getRngSeed i.state, i.counter)))))
  ⟨t.1, i.gameStarted, t.2.2⟩

/-- `GameInstance.tick`: board-shape guard, `gameStarted` guard, the
line-clear flash window (freeze or finalize), then `tickMain`. -/
def tick (i : GameInstance) (deltaMs : Nat) (nowMs : Int) : GameInstance :=
  let s := i.state
  if ¬(s.board.length = BOARD_HEIGHT ∧ (s.board.headD []).length = BOARD_WIDTH)
  then i
  else if ¬ i.gameStarted then i
  else if (s.lineClearFxRows.getD []) ≠ [] then
    if nowMs < s.lineClearFxUntilMs then i
    else tickMain { i with state := finalizeLineClear s } deltaMs nowMs
  else tickMain i deltaMs nowMs

/-- One per-tick input record: the consumed queued action, the held
soft-drop flag, the elapsed delta and the current timestamp. -/
structure TickInput where
  action : Option InputAction
  softDrop : Bool
  delta : Nat
  now : Int
deriving DecidableEq, Repr

/-- One driver step: the `start` wiring (`setGameStarted`), then
`handleAction`, then `tick` — the per-tick sequence the server performs
for one instance. -/
def step (i : GameInstance) (inp : TickInput) : GameInstance :=
  let i := if inp.action = some InputAction.start then setGameStarted i else i
  let i := handleAction i inp.action inp.softDrop inp.now
  tick i inp.delta inp.now

/-- A full run: fold `step` over the input sequence. -/
def run (i : GameInstance) (inputs : List TickInput) : GameInstance :=
  inputs.foldl step i

/-! ## Claim C4: the collision predicate -/

theorem any_congr_mem {α : Type} {l : List α} {f g : α → Bool}
    (h : ∀ x ∈ l, f x = g x) : l.any f = l.any g := by
  induction l with
  | nil => rfl
  | cons c cs ih =>
    simp only [List.any_cons]
    rw [h c (List.mem_cons_self c cs),
      ih (fun d hd => h d (List.mem_cons_of_mem c hd))]

/-- C4: `collides(board, piece)` returns true exactly when some occupied
cell of the piece has `x < 0`, `x ≥ BOARD_WIDTH`, or `y < 0`, or lies in a
playable row (`y < BOARD_HEIGHT`) whose board cell is non-empty; and a
piece all of whose cells sit at `y ≥ BOARD_HEIGHT` collides independently
of the board content — only its lateral bounds matter there. -/
theorem collides_characterization (b : BoardGrid) (p : PieceState) :
    (collides b p = true ↔
      ∃ c ∈ getPieceCells p,
        c.1 < 0 ∨ (BOARD_WIDTH : Int) ≤ c.1 ∨ c.2 < 0 ∨
          (c.2 < (BOARD_HEIGHT : Int) ∧ cellAt b c.2 c.1 ≠ 0)) ∧
    ((∀ c ∈ getPieceCells p, (BOARD_HEIGHT : Int) ≤ c.2) →
      ∀ b' : BoardGrid, collides b p = collides b' p) := by
  constructor
  · simp only [collides, List.any_eq_true, Bool.or_eq_true, Bool.and_eq_true,
      decide_eq_true_eq]
    constructor
    · rintro ⟨c, hc, hor⟩
      exact ⟨c, hc, by tauto⟩
    · rintro ⟨c, hc, hor⟩
      exact ⟨c, hc, by tauto⟩
  · intro hbuf b'
    have hcell : ∀ c ∈ getPieceCells p,
        (decide (c.1 < 0) || decide ((BOARD_WIDTH : Int) ≤ c.1) ||
          decide (c.2 < 0) ||
          (decide (c.2 < (BOARD_HEIGHT : Int)) &&
            decide (cellAt b c.2 c.1 ≠ 0))) =
        (decide (c.1 < 0) || decide ((BOARD_WIDTH : Int) ≤ c.1) ||
          decide (c.2 < 0) ||
          (decide (c.2 < (BOARD_HEIGHT : Int)) &&
            decide (cellAt b' c.2 c.1 ≠ 0))) := by
      intro c hc
      have h20 := hbuf c hc
      have hlt : decide (c.2 < (BOARD_HEIGHT : Int)) = false := by
        simp only [decide_eq_false_iff_not, not_lt]
        exact h20
      rw [hlt]
      simp
    unfold collides
    exact any_congr_mem hcell

/-! ## Claim C5: rotation and the wall-kick order -/

theorem tryKicks_eq_find (s : TetrisState) (p : PieceState) (nr : Nat)
    (L : List (Int × Int)) :
    tryKicks s p nr L =
      match L.find? (fun o => !collides s.board (kickedPiece p nr o.1 o.2)) with
      | some o => (true, { s with activePiece := some (kickedPiece p nr o.1 o.2) })
      | none => (false, s) := by
  induction L with
  | nil => rfl
  | cons hd tl ih =>
    obtain ⟨dx, dy⟩ := hd
    show (if collides s.board (kickedPiece p nr dx dy) = true then
        tryKicks s p nr tl
      else (true, { s with activePiece := some (kickedPiece p nr dx dy) })) = _
    rw [List.find?_cons]
    cases hcol : collides s.board (kickedPiece p nr dx dy) with
    | true =>
      rw [if_pos rfl]
      simp only [Bool.not_true]
      exact ih
    | false =>
      rw [if_neg (by simp)]
      simp only [Bool.not_false]

/-- C5: for a running state with an active piece, `tryRotate` advances the
rotation phase to `(rotation + 1) % 4` (clockwise only) and tries the
wall-kick offsets in the exact order `(0,0), (1,0), (-1,0), (2,0), (-2,0),
(0,-1)`, installing the first kicked piece that does not collide; when
every offset collides it returns `false` and leaves the state unchanged. -/
theorem tryRotate_wall_kick_order (s : TetrisState) (p : PieceState)
    (hst : s.gameStatus = GameStatus.RUNNING) (hp : s.activePiece = some p) :
    tryRotate s =
      match (([(0, 0), (1, 0), (-1, 0), (2, 0), (-2, 0), (0, -1)] :
          List (Int × Int)).find?
          (fun o => !collides s.board
            (kickedPiece p ((p.rotation + 1) % 4) o.1 o.2))) with
      | some o =>
        (true,
          { s with
            activePiece := some (kickedPiece p ((p.rotation + 1) % 4) o.1 o.2) })
      | none => (false, s) := by
  have hL : WALL_KICK_OFFSETS =
      ([(0, 0), (1, 0), (-1, 0), (2, 0), (-2, 0), (0, -1)] :
        List (Int × Int)) := rfl
  simp only [tryRotate, hp]
  rw [if_neg (by simp [hst]), ← hL]
  exact tryKicks_eq_find s p ((p.rotation + 1) % 4) WALL_KICK_OFFSETS

/-- Witness for C5 at a concrete input: the freshly created seed-0 state
(an empty board with the J piece at the spawn point), where the in-place
offset `(0,0)` is the accepted kick. -/
theorem tryRotate_wall_kick_order_witness :
    (createInitialState 0 0).1.gameStatus = GameStatus.RUNNING ∧
    (createInitialState 0 0).1.activePiece = some ⟨1, 6, 0, 3, 20⟩ ∧
    tryRotate (createInitialState 0 0).1 =
      match (([(0, 0), (1, 0), (-1, 0), (2, 0), (-2, 0), (0, -1)] :
          List (Int × Int)).find?
          (fun o => !collides (createInitialState 0 0).1.board
            (kickedPiece ⟨1, 6, 0, 3, 20⟩ ((0 + 1) % 4) o.1 o.2))) with
      | some o =>
        (true,
          { (createInitialState 0 0).1 with
            activePiece := some (kickedPiece ⟨1, 6, 0, 3, 20⟩ ((0 + 1) % 4) o.1 o.2) })
      | none => (false, (createInitialState 0 0).1) :=
  ⟨rfl, rfl, tryRotate_wall_kick_order (createInitialState 0 0).1
    ⟨1, 6, 0, 3, 20⟩ rfl rfl⟩

/-! ## Claim C9: rejected calls are no-ops -/

/-- C9: a movement, rotation, soft-drop or hard-drop call that cannot be
applied — no active piece, status not `RUNNING` (in particular
`GAME_OVER`), a colliding candidate placement, or every wall-kick offset
colliding — reports failure (`false`, or the zero line-clear result) and
leaves the entire state (and the RNG/id threads) unchanged. -/
theorem rejected_calls_noop (s : TetrisState) (dx dy : Int) (r cnt : Nat)
    (nowMs : Int) :
    (s.activePiece = none ∨ s.gameStatus ≠ GameStatus.RUNNING →
      tryMove s dx dy = (false, s) ∧ tryRotate s = (false, s) ∧
      softDrop s = (false, s) ∧
      hardDrop s r cnt nowMs = (⟨0, 0⟩, s, r, cnt)) ∧
    (∀ p, s.activePiece = some p →
      collides s.board (movedPiece p dx dy) = true →
      tryMove s dx dy = (false, s)) ∧
    (∀ p, s.activePiece = some p →
      (∀ o ∈ WALL_KICK_OFFSETS,
        collides s.board (kickedPiece p ((p.rotation + 1) % 4) o.1 o.2) = true) →
      tryRotate s = (false, s)) := by
  refine ⟨?_, ?_, ?_⟩
  · intro h
    cases hp : s.activePiece with
    | none =>
      refine ⟨?_, ?_, ?_, ?_⟩ <;> simp [tryMove, tryRotate, softDrop, hardDrop, hp]
    | some p =>
      have hst : s.gameStatus ≠ GameStatus.RUNNING := by
        rcases h with h | h
        · rw [hp] at h; cases h
        · exact h
      refine ⟨?_, ?_, ?_, ?_⟩ <;>
        simp [tryMove, tryRotate, softDrop, hardDrop, hp, hst]
  · intro p hp hcol
    by_cases hst : s.gameStatus ≠ GameStatus.RUNNING
    · simp [tryMove, hp, hst]
    · simp [tryMove, hp, hst, hcol]
  · intro p hp hall
    by_cases hst : s.gameStatus ≠ GameStatus.RUNNING
    · simp [tryRotate, hp, hst]
    · simp only [tryRotate, hp, if_neg hst]
      rw [tryKicks_eq_find]
      have hnone : (WALL_KICK_OFFSETS.find?
          (fun o => !collides s.board
            (kickedPiece p ((p.rotation + 1) % 4) o.1 o.2))) = none := by
        rw [List.find?_eq_none]
        intro o ho
        simp [hall o ho]
      rw [hnone]

/-! ## Claim C6: line-clear scoring and the combo window -/

theorem roundQ_intCast (z : ℤ) : roundQ (z : ℚ) = z := by
  unfold roundQ
  rw [Int.floor_int_add]
  norm_num

theorem SCORE_PER_LINES_mod10 (n : Nat) : SCORE_PER_LINES n % 10 = 0 := by
  unfold SCORE_PER_LINES
  split
  · norm_num
  split
  · norm_num
  split
  · norm_num
  split <;> norm_num

theorem points_exact (b c : ℕ) (hb : b % 10 = 0) :
    ((roundQ ((b : ℚ) * (1 + (c : ℚ) * (1 / 10)))).toNat : ℚ) =
      (b : ℚ) * (1 + (c : ℚ) * (1 / 10)) := by
  obtain ⟨k, rfl⟩ := Nat.dvd_of_mod_eq_zero hb
  have hv : ((10 * k : ℕ) : ℚ) * (1 + (c : ℚ) * (1 / 10)) =
      (((10 * k + k * c : ℕ) : ℤ) : ℚ) := by
    push_cast
    ring
  rw [hv, roundQ_intCast, Int.toNat_natCast]
  push_cast
  ring

/-- Closed form of `applyLineClearScoring`. -/
theorem applyLineClearScoring_eq (s : TetrisState) (n : Nat) (nowMs : Int) :
    applyLineClearScoring s n nowMs =
      (let c : Nat :=
        if s.lastLineClearTimeMs > 0 ∧
            nowMs - s.lastLineClearTimeMs ≤ COMBO_WINDOW_MS
          then s.comboCount + 1 else 0
       let pts : Nat := (roundQ ((SCORE_PER_LINES n : ℚ) *
          (1 + (c : ℚ) * COMBO_MULTIPLIER_PER_STACK))).toNat
       let lv : Nat := (s.lines + n) / LINES_PER_LEVEL + 1
       (pts,
        { s with
          lastLineClearTimeMs := nowMs
          comboCount := c
          score := s.score + pts
          lines := s.lines + n
          level := lv
          gravityIntervalMs :=
            if lv > s.level then
              (clampGravityMs
                (GRAVITY_BASE_MS - (lv : Int) * GRAVITY_DECREASE_PER_LEVEL_MS)
                GRAVITY_MIN_MS GRAVITY_BASE_MS).toNat
            else s.gravityIntervalMs })) := by
  unfold applyLineClearScoring
  by_cases hw : s.lastLineClearTimeMs > 0 ∧
      nowMs - s.lastLineClearTimeMs ≤ COMBO_WINDOW_MS
  · simp only [if_pos hw]
    by_cases hl : (s.lines + n) / LINES_PER_LEVEL + 1 > s.level
    · simp only [if_pos hl]
    · simp only [if_neg hl]
  · simp only [if_neg hw]
    by_cases hl : (s.lines + n) / LINES_PER_LEVEL + 1 > s.level
    · simp only [if_pos hl]
    · simp only [if_neg hl]

/-- C6: on an `n`-row clear at time `nowMs`, the base points are
`100/300/500/800` for `n = 1/2/3/4` and `0` for any other count; the combo
counter increments exactly when the previous clear timestamp is positive
and within the 5000 ms window of `nowMs`, and otherwise resets to `0`; the
awarded points are the base points times `(1 + comboCount * 0.1)` (exactly,
over `ℚ`) and are added to the score; and the last-clear timestamp and
combo counter are updated on every non-empty clear performed by
`mergeAndClearLines`. -/
theorem line_clear_scoring_spec (s : TetrisState) (n : Nat) (nowMs : Int) :
    (SCORE_PER_LINES 1 = 100 ∧ SCORE_PER_LINES 2 = 300 ∧
      SCORE_PER_LINES 3 = 500 ∧ SCORE_PER_LINES 4 = 800 ∧
      ∀ m, m ∉ ([1, 2, 3, 4] : List Nat) → SCORE_PER_LINES m = 0) ∧
    ((applyLineClearScoring s n nowMs).2.comboCount =
        (if s.lastLineClearTimeMs > 0 ∧
            nowMs - s.lastLineClearTimeMs ≤ COMBO_WINDOW_MS
          then s.comboCount + 1 else 0) ∧
      (applyLineClearScoring s n nowMs).2.lastLineClearTimeMs = nowMs ∧
      (((applyLineClearScoring s n nowMs).1 : ℚ) =
        (SCORE_PER_LINES n : ℚ) *
          (1 + ((if s.lastLineClearTimeMs > 0 ∧
              nowMs - s.lastLineClearTimeMs ≤ COMBO_WINDOW_MS
            then s.comboCount + 1 else 0 : Nat) : ℚ) *
            COMBO_MULTIPLIER_PER_STACK)) ∧
      (applyLineClearScoring s n nowMs).2.score =
        s.score + (applyLineClearScoring s n nowMs).1) ∧
    (∀ res s2, mergeAndClearLines s nowMs = (res, s2) →
      1 ≤ res.linesCleared →
      s2.lastLineClearTimeMs = nowMs ∧
      s2.comboCount =
        (if s.lastLineClearTimeMs > 0 ∧
            nowMs - s.lastLineClearTimeMs ≤ COMBO_WINDOW_MS
          then s.comboCount + 1 else 0)) := by
  refine ⟨⟨rfl, rfl, rfl, rfl, ?_⟩, ?_, ?_⟩
  · intro m hm
    simp only [List.mem_cons, List.not_mem_nil, or_false, not_or] at hm
    unfold SCORE_PER_LINES
    simp [hm.1, hm.2.1, hm.2.2.1, hm.2.2.2]
  · rw [applyLineClearScoring_eq]
    refine ⟨rfl, rfl, ?_, rfl⟩
    show (((roundQ ((SCORE_PER_LINES n : ℚ) *
      (1 + (_ : ℚ) * COMBO_MULTIPLIER_PER_STACK))).toNat : ℚ)) = _
    have h10 : COMBO_MULTIPLIER_PER_STACK = (1 / 10 : ℚ) := rfl
    rw [h10]
    exact points_exact (SCORE_PER_LINES n) _ (SCORE_PER_LINES_mod10 n)
  · intro res s2 h hres
    unfold mergeAndClearLines at h
    cases hp : s.activePiece with
    | none =>
      rw [hp] at h
      injection h with h1 h2
      rw [← h1] at hres
      cases hres
    | some p =>
      rw [hp] at h
      simp only at h
      split at h
      · injection h with h1 h2
        rw [← h1] at hres
        cases hres
      · rw [applyLineClearScoring_eq] at h
        injection h with h1 h2
        rw [← h2]
        exact ⟨rfl, rfl⟩

/-! ## Claim C7: gravity catch-up semantics -/

/-- `k` consecutive successful downward translates (`none` when one of
them fails). -/
def dropN : Nat → TetrisState → Option TetrisState
  | 0, s => some s
  | k + 1, s =>
    match tryMove s 0 (-1) with
    | (true, s') => dropN k s'
    | (false, _) => none

/-- `tryMove` neither reads nor keeps the gravity accumulator: running it
on an accumulator-adjusted state adjusts the result's accumulator alike. -/
theorem tryMove_acc (s : TetrisState) (a : Nat) (dx dy : Int) :
    tryMove { s with gravityAccumulatorMs := a } dx dy =
      ((tryMove s dx dy).1,
        { (tryMove s dx dy).2 with gravityAccumulatorMs := a }) := by
  unfold tryMove
  cases hp : s.activePiece with
  | none => simp only [hp]
  | some p =>
    simp only [hp]
    by_cases hst : s.gameStatus ≠ GameStatus.RUNNING
    · rw [if_pos hst, if_pos hst]
      simp [hp]
    · rw [if_neg hst, if_neg hst]
      by_cases hcol : collides s.board (movedPiece p dx dy) = true
      · rw [if_pos hcol, if_pos hcol]
        simp [hp]
      · rw [if_neg hcol, if_neg hcol]

theorem dropN_acc (k : Nat) (s : TetrisState) (a : Nat) :
    dropN k { s with gravityAccumulatorMs := a } =
      (dropN k s).map (fun t => { t with gravityAccumulatorMs := a }) := by
  induction k generalizing s with
  | zero => rfl
  | succ k ih =>
    have hL : dropN (k + 1) { s with gravityAccumulatorMs := a } =
        (match tryMove { s with gravityAccumulatorMs := a } 0 (-1) with
         | (true, s') => dropN k s'
         | (false, _) => none) := rfl
    have hR : dropN (k + 1) s =
        (match tryMove s 0 (-1) with
         | (true, s') => dropN k s'
         | (false, _) => none) := rfl
    rw [hL, hR, tryMove_acc]
    rcases htm : tryMove s 0 (-1) with ⟨b, s'⟩
    cases b
    · rfl
    · show dropN k { s' with gravityAccumulatorMs := a } =
        (dropN k s').map (fun t => { t with gravityAccumulatorMs := a })
      exact ih s'

/-- Unrolling the gravity while-loop: some number `k` of successful drops
is performed, each consuming one interval from the accumulator; either the
accumulator drops below the interval with no lock, or the `(k+1)`-st
downward translate fails and a single `lockPiece` ends the loop. -/
theorem gravLoop_run (s : TetrisState) (interval r cnt : Nat) (nowMs : Int)
    (hpos : 0 < interval) :
    ∃ k sW, dropN k s = some sW ∧
      k * interval ≤ s.gravityAccumulatorMs ∧
      ((gravLoop s interval r cnt nowMs =
          (none,
            { sW with gravityAccumulatorMs :=
                s.gravityAccumulatorMs - k * interval }, r, cnt) ∧
        s.gravityAccumulatorMs - k * interval < interval) ∨
       ((k + 1) * interval ≤ s.gravityAccumulatorMs ∧
        (tryMove
          { sW with gravityAccumulatorMs :=
              s.gravityAccumulatorMs - (k + 1) * interval } 0 (-1)).1 = false ∧
        gravLoop s interval r cnt nowMs =
          (let out := lockPiece
            { sW with gravityAccumulatorMs :=
                s.gravityAccumulatorMs - (k + 1) * interval } r cnt nowMs
           (some out.1, out.2.1, out.2.2.1, out.2.2.2)))) := by
  generalize hacc : s.gravityAccumulatorMs = acc
  revert s
  induction acc using Nat.strong_induction_on with
  | _ acc ih =>
  intro s hacc
  have hstep : gravLoop s interval r cnt nowMs =
      (if interval ≤ acc then
        match tryMove s 0 (-1) with
        | (true, sm) =>
          gravLoop { sm with gravityAccumulatorMs := acc - interval }
            interval r cnt nowMs
        | (false, _) =>
          let out := lockPiece { s with gravityAccumulatorMs := acc - interval }
            r cnt nowMs
          (some out.1, out.2.1, out.2.2.1, out.2.2.2)
      else (none, s, r, cnt)) := by
    rw [gravLoop_eq, hacc]
    by_cases hge : interval ≤ acc
    · rw [if_pos hge, if_pos hge, tryMove_acc]
      rcases htm : tryMove s 0 (-1) with ⟨b, sm⟩
      cases b <;> rfl
    · rw [if_neg hge, if_neg hge]
  by_cases hge : interval ≤ acc
  · rcases htm : tryMove s 0 (-1) with ⟨b, sm⟩
    cases b with
    | false =>
      have hout : gravLoop s interval r cnt nowMs =
          (let out := lockPiece { s with gravityAccumulatorMs := acc - interval }
            r cnt nowMs
           (some out.1, out.2.1, out.2.2.1, out.2.2.2)) := by
        rw [hstep, if_pos hge, htm]
      have h1 : acc - (0 + 1) * interval = acc - interval := by ring_nf
      refine ⟨0, s, rfl, by omega, Or.inr ⟨by omega, ?_, ?_⟩⟩
      · rw [h1, tryMove_acc, htm]
      · rw [hout, h1]
    | true =>
      have hout : gravLoop s interval r cnt nowMs =
          gravLoop { sm with gravityAccumulatorMs := acc - interval }
            interval r cnt nowMs := by
        rw [hstep, if_pos hge, htm]
      have hs2acc : ({ sm with gravityAccumulatorMs := acc - interval } :
          TetrisState).gravityAccumulatorMs = acc - interval := rfl
      obtain ⟨k, sW, hdrop, hbound, hcase⟩ :=
        ih (acc - interval) (by omega) _ hs2acc
      rw [dropN_acc, Option.map_eq_some'] at hdrop
      obtain ⟨sW0, hdrop0, hsW⟩ := hdrop
      have hm : (k + 1) * interval = k * interval + interval := by ring
      refine ⟨k + 1, sW0, ?_, by omega, ?_⟩
      · have hunf : dropN (k + 1) s =
            (match tryMove s 0 (-1) with
             | (true, s2) => dropN k s2
             | (false, _) => none) := rfl
        rw [hunf, htm]
        exact hdrop0
      · rcases hcase with ⟨hout2, hrem⟩ | ⟨hb2, htm2, hout2⟩
        · left
          have h2 : acc - interval - k * interval = acc - (k + 1) * interval := by
            omega
          constructor
          · rw [hout, hout2, ← hsW, h2]
          · omega
        · right
          have hm2 : (k + 1 + 1) * interval = (k + 1) * interval + interval := by
            ring
          have h2 : acc - interval - (k + 1) * interval =
              acc - (k + 1 + 1) * interval := by omega
          refine ⟨by omega, ?_, ?_⟩
          · rw [← hsW, h2] at htm2
            exact htm2
          · rw [hout, hout2, ← hsW, h2]
  · have hout : gravLoop s interval r cnt nowMs = (none, s, r, cnt) := by
      rw [hstep, if_neg hge]
    refine ⟨0, s, rfl, by omega, Or.inl ⟨?_, by omega⟩⟩
    rw [hout]
    have h0 : acc - 0 * interval = acc := by omega
    rw [h0, ← hacc]

/-- C7: `tickGravity` adds the delta to the gravity accumulator and, while
the accumulator is at least the active interval (the fixed 50 ms soft-drop
interval when soft drop is held, else the level-derived interval), performs
one downward translate per loop iteration, consuming one interval each —
so `k` drops can happen in one call; the first failed downward translate
triggers a single `lockPiece` immediately and ends the loop, so at most
one lock happens per call.  (For a non-running state or a missing piece
the call is a no-op returning `null`.) -/
theorem tickGravity_catch_up (s : TetrisState) (deltaMs r cnt : Nat)
    (nowMs : Int) :
    (s.gameStatus ≠ GameStatus.RUNNING ∨ s.activePiece = none →
      tickGravity s deltaMs r cnt nowMs = (none, s, r, cnt)) ∧
    (∀ interval : Nat,
      interval =
        (if s.softDropActive then SOFT_DROP_INTERVAL_MS
          else s.gravityIntervalMs) →
      0 < interval →
      s.gameStatus = GameStatus.RUNNING → s.activePiece ≠ none →
      ∃ k sW,
        dropN k { s with gravityAccumulatorMs :=
          s.gravityAccumulatorMs + deltaMs } = some sW ∧
        k * interval ≤ s.gravityAccumulatorMs + deltaMs ∧
        ((tickGravity s deltaMs r cnt nowMs =
            (none,
              { sW with gravityAccumulatorMs :=
                  s.gravityAccumulatorMs + deltaMs - k * interval }, r, cnt) ∧
          s.gravityAccumulatorMs + deltaMs - k * interval < interval) ∨
         ((k + 1) * interval ≤ s.gravityAccumulatorMs + deltaMs ∧
          (tryMove
            { sW with gravityAccumulatorMs :=
                s.gravityAccumulatorMs + deltaMs - (k + 1) * interval }
            0 (-1)).1 = false ∧
          tickGravity s deltaMs r cnt nowMs =
            (let out := lockPiece
              { sW with gravityAccumulatorMs :=
                  s.gravityAccumulatorMs + deltaMs - (k + 1) * interval }
              r cnt nowMs
             (some out.1, out.2.1, out.2.2.1, out.2.2.2))))) := by
  constructor
  · intro h
    unfold tickGravity
    rw [if_pos h]
  · intro interval hint hpos hst hp
    have hguard : ¬(s.gameStatus ≠ GameStatus.RUNNING ∨ s.activePiece = none) := by
      push_neg
      exact ⟨by simp [hst], hp⟩
    have htg : tickGravity s deltaMs r cnt nowMs =
        gravLoop { s with gravityAccumulatorMs :=
          s.gravityAccumulatorMs + deltaMs } interval r cnt nowMs := by
      unfold tickGravity
      rw [if_neg hguard, ← hint]
    obtain ⟨k, sW, hdrop, hbound, hcase⟩ :=
      gravLoop_run { s with gravityAccumulatorMs :=
        s.gravityAccumulatorMs + deltaMs } interval r cnt nowMs hpos
    refine ⟨k, sW, hdrop, hbound, ?_⟩
    rw [htg]
    exact hcase

/-! ## Characterization lemmas for the mutating operations -/

theorem tryMove_cases (s : TetrisState) (dx dy : Int) :
    tryMove s dx dy = (false, s) ∨
    (∃ p, s.activePiece = some p ∧ s.gameStatus = GameStatus.RUNNING ∧
      collides s.board (movedPiece p dx dy) = false ∧
      tryMove s dx dy =
        (true, { s with activePiece := some (movedPiece p dx dy) })) := by
  unfold tryMove
  cases hp : s.activePiece with
  | none => left; rfl
  | some p =>
    simp only []
    by_cases hst : s.gameStatus ≠ GameStatus.RUNNING
    · left
      rw [if_pos hst]
    · rw [if_neg hst]
      by_cases hcol : collides s.board (movedPiece p dx dy) = true
      · left
        rw [if_pos hcol]
      · right
        have hcf : collides s.board (movedPiece p dx dy) = false := by
          simpa using hcol
        exact ⟨p, rfl, not_not.mp hst, hcf, by rw [if_neg hcol]⟩

theorem tryRotate_cases (s : TetrisState) :
    tryRotate s = (false, s) ∨
    (∃ (p : PieceState) (o : Int × Int),
      s.activePiece = some p ∧ s.gameStatus = GameStatus.RUNNING ∧
      collides s.board (kickedPiece p ((p.rotation + 1) % 4) o.1 o.2) = false ∧
      tryRotate s =
        (true,
          { s with
            activePiece :=
              some (kickedPiece p ((p.rotation + 1) % 4) o.1 o.2) })) := by
  unfold tryRotate
  cases hp : s.activePiece with
  | none => left; rfl
  | some p =>
    simp only []
    by_cases hst : s.gameStatus ≠ GameStatus.RUNNING
    · left
      rw [if_pos hst]
    · rw [if_neg hst, tryKicks_eq_find]
      cases hf : WALL_KICK_OFFSETS.find?
          (fun o => !collides s.board
            (kickedPiece p ((p.rotation + 1) % 4) o.1 o.2)) with
      | none =>
        left
        rfl
      | some o =>
        right
        have hpred := List.find?_some hf
        exact ⟨p, o, rfl, not_not.mp hst, by simpa using hpred, rfl⟩

theorem tryMove_board (s : TetrisState) (dx dy : Int) :
    (tryMove s dx dy).2.board = s.board := by
  rcases tryMove_cases s dx dy with h | ⟨p, _, _, _, h⟩ <;> rw [h]

theorem tryRotate_board (s : TetrisState) :
    (tryRotate s).2.board = s.board := by
  rcases tryRotate_cases s with h | ⟨p, o, _, _, _, h⟩ <;> rw [h]

theorem spawnNextPiece_char (s : TetrisState) (r cnt : Nat) :
    ∃ p np2 r2 cnt2, spawnNextPiece s r cnt =
      (some p, { s with nextPiece := some np2, activePiece := some p },
        r2, cnt2) ∧
      p.x = SPAWN_X ∧ p.y = SPAWN_Y ∧ p.rotation = 0 := by
  unfold spawnNextPiece
  cases hn : s.nextPiece with
  | some n => exact ⟨_, _, _, _, rfl, rfl, rfl, rfl⟩
  | none => exact ⟨_, _, _, _, rfl, rfl, rfl, rfl⟩

theorem getPieceCells_x_bounds {p : PieceState} {c : Int × Int}
    (h : c ∈ getPieceCells p) : p.x ≤ c.1 ∧ c.1 ≤ p.x + 3 := by
  simp only [getPieceCells, List.mem_map] at h
  obtain ⟨lc, hlc, rfl⟩ := h
  have := cellsLocal_lt hlc
  simp only
  omega

/-- A piece sitting at the spawn point never collides: its cells lie in
columns `3..6` and in the spawn buffer rows `≥ 20`, which `collides`
ignores for any board. -/
theorem collides_spawn (b : BoardGrid) (p : PieceState)
    (hx : p.x = SPAWN_X) (hy : p.y = SPAWN_Y) : collides b p = false := by
  unfold collides
  rw [List.any_eq_false]
  intro c hc
  have hxb := getPieceCells_x_bounds hc
  have hyb := getPieceCells_y_bounds hc
  rw [hx] at hxb
  rw [hy] at hyb
  simp only [SPAWN_X] at hxb
  simp only [SPAWN_Y] at hyb
  simp only [Bool.or_eq_true, decide_eq_true_eq, Bool.and_eq_true, not_or,
    BOARD_WIDTH, BOARD_HEIGHT]
  refine ⟨⟨⟨by omega, by omega⟩, by omega⟩, ?_⟩
  rintro ⟨h1, -⟩
  omega

/-! ## Board shape -/

/-- The C2 invariant: 20 rows of 10 cells each. -/
def BoardShape (b : BoardGrid) : Prop :=
  b.length = BOARD_HEIGHT ∧ ∀ row ∈ b, row.length = BOARD_WIDTH

theorem foldl_preserve {α β : Type} {P : β → Prop} {f : β → α → β}
    (hf : ∀ b a, P b → P (f b a)) :
    ∀ (l : List α) (b : β), P b → P (l.foldl f b) := by
  intro l
  induction l with
  | nil => intro b h; exact h
  | cons x xs ih => intro b h; exact ih _ (hf b x h)

theorem createEmptyBoard_shape : BoardShape createEmptyBoard := by
  constructor
  · simp [createEmptyBoard]
  · intro row hrow
    rw [List.eq_of_mem_replicate hrow]
    simp

theorem updateCell_shape (b : BoardGrid) (y x v : Nat) (h : BoardShape b) :
    BoardShape (updateCell b y x v) := by
  obtain ⟨hl, hr⟩ := h
  by_cases hy : y < b.length
  · constructor
    · rw [updateCell, List.length_set]
      exact hl
    · intro row hrow
      rcases List.mem_or_eq_of_mem_set hrow with hmem | heq
      · exact hr row hmem
      · subst heq
        rw [List.length_set, List.getD_eq_getElem b [] hy]
        exact hr _ (List.getElem_mem hy)
  · rw [updateCell, List.set_eq_of_length_le (le_of_not_lt hy)]
    exact ⟨hl, hr⟩

theorem mergeBoard_shape (cells : List (Int × Int)) (t : Nat)
    (b : BoardGrid) (h : BoardShape b) :
    BoardShape (cells.foldl
      (fun (b : BoardGrid) c =>
        if 0 ≤ c.2 ∧ c.2 < (BOARD_HEIGHT : Int) ∧ 0 ≤ c.1 ∧
            c.1 < (BOARD_WIDTH : Int)
        then updateCell b c.2.toNat c.1.toNat t
        else b) b) := by
  refine foldl_preserve ?_ cells b h
  intro b c hb
  split
  · exact updateCell_shape _ _ _ _ hb
  · exact hb

theorem applyLineClearScoring_board (s : TetrisState) (n : Nat)
    (nowMs : Int) : (applyLineClearScoring s n nowMs).2.board = s.board := by
  rw [applyLineClearScoring_eq]

theorem mergeAndClearLines_shape (s : TetrisState) (nowMs : Int)
    (h : BoardShape s.board) :
    BoardShape (mergeAndClearLines s nowMs).2.board := by
  unfold mergeAndClearLines
  cases hp : s.activePiece with
  | none => exact h
  | some p =>
    simp only
    split
    · exact mergeBoard_shape _ _ _ h
    · rw [applyLineClearScoring_eq]
      exact mergeBoard_shape _ _ _ h

theorem finalizeLineClear_shape (s : TetrisState) (h : BoardShape s.board) :
    BoardShape (finalizeLineClear s).board := by
  unfold finalizeLineClear
  cases hfx : s.lineClearFxRows with
  | none => exact h
  | some rows =>
    simp only []
    by_cases hnil : rows = []
    · rw [if_pos hnil]
      exact h
    · rw [if_neg hnil]
      simp only []
      have hfold : BoardShape ((rows.mergeSort fun a b => decide (b ≤ a)).foldl
          (fun (b : BoardGrid) row =>
            if BOARD_HEIGHT ≤ row then b
            else (b.eraseIdx row) ++ [List.replicate BOARD_WIDTH 0]) s.board) := by
        refine foldl_preserve ?_ _ _ h
        intro b row hb
        obtain ⟨hl, hr⟩ := hb
        split
        · exact ⟨hl, hr⟩
        · next hrow =>
          push_neg at hrow
          constructor
          · rw [List.length_append, List.length_eraseIdx,
              if_pos (by omega)]
            simp only [List.length_cons, List.length_nil]
            omega
          · intro r hrm
            rcases List.mem_append.mp hrm with hm | hm
            · exact hr r (List.mem_of_mem_eraseIdx hm)
            · rw [List.mem_singleton.mp hm]
              simp
      obtain ⟨hl2, hr2⟩ := hfold
      constructor
      · simp only [List.length_append, List.length_replicate]
        omega
      · intro r hrm
        rcases List.mem_append.mp hrm with hm | hm
        · exact hr2 r hm
        · rw [List.eq_of_mem_replicate hm]
          simp

theorem hardLoopF_board (fuel : Nat) (s : TetrisState) :
    (hardLoopF fuel s).board = s.board := by
  induction fuel generalizing s with
  | zero => rfl
  | succ f ih =>
    show (match tryMove s 0 (-1) with
          | (true, s') => hardLoopF f s'
          | (false, _) => s).board = s.board
    rcases htm : tryMove s 0 (-1) with ⟨b, sm⟩
    cases b
    · rfl
    · show (hardLoopF f sm).board = s.board
      rw [ih sm]
      have := tryMove_board s 0 (-1)
      rw [htm] at this
      exact this

theorem lockPiece_board (s : TetrisState) (r cnt : Nat) (nowMs : Int) :
    (lockPiece s r cnt nowMs).2.1.board =
      (mergeAndClearLines s nowMs).2.board := by
  unfold lockPiece
  rcases hm : mergeAndClearLines s nowMs with ⟨res, s1⟩
  simp only []
  split
  · rfl
  · split
    · rfl
    · obtain ⟨p, np2, r2, cnt2, hsp, -, -, -⟩ :=
        spawnNextPiece_char { s1 with gravityAccumulatorMs := 0 } r cnt
      rw [hsp]
      simp only []
      split <;> rfl

theorem hardDrop_shape (s : TetrisState) (r cnt : Nat) (nowMs : Int)
    (h : BoardShape s.board) :
    BoardShape (hardDrop s r cnt nowMs).2.1.board := by
  unfold hardDrop
  cases hp : s.activePiece with
  | none => exact h
  | some p =>
    simp only []
    split
    · exact h
    · rw [lockPiece_board]
      apply mergeAndClearLines_shape
      show BoardShape (hardLoopF (pieceMeasure s + 1) s).board
      rw [hardLoopF_board]
      exact h

theorem gravLoopF_shape (fuel : Nat) (s : TetrisState)
    (interval r cnt : Nat) (nowMs : Int) (h : BoardShape s.board) :
    BoardShape (gravLoopF fuel s interval r cnt nowMs).2.1.board := by
  induction fuel generalizing s with
  | zero => exact h
  | succ f ih =>
    show BoardShape (if interval ≤ s.gravityAccumulatorMs then _ else _ :
      Option LineClearResult × TetrisState × Nat × Nat).2.1.board
    split
    · rcases htm : tryMove
          { s with gravityAccumulatorMs := s.gravityAccumulatorMs - interval }
          0 (-1) with ⟨b, sm⟩
      simp only [htm]
      have hb : sm.board = s.board := by
        have := tryMove_board
          { s with gravityAccumulatorMs := s.gravityAccumulatorMs - interval }
          0 (-1)
        rw [htm] at this
        exact this
      cases b
      · show BoardShape (lockPiece
          { s with gravityAccumulatorMs := s.gravityAccumulatorMs - interval }
          r cnt nowMs).2.1.board
        rw [lockPiece_board]
        exact mergeAndClearLines_shape _ _ h
      · show BoardShape (gravLoopF f sm interval r cnt nowMs).2.1.board
        exact ih sm (hb ▸ h)
    · exact h

theorem tickGravity_shape (s : TetrisState) (deltaMs r cnt : Nat)
    (nowMs : Int) (h : BoardShape s.board) :
    BoardShape (tickGravity s deltaMs r cnt nowMs).2.1.board := by
  unfold tickGravity
  split
  · exact h
  · exact gravLoopF_shape _ _ _ _ _ _ h

theorem resetState_shape (s : TetrisState) (seed : Option Nat) (cnt : Nat) :
    BoardShape (resetState s seed cnt).1.board :=
  createEmptyBoard_shape

theorem fillRow_shape (s : TetrisState) (y : Int) (h : BoardShape s.board) :
    BoardShape (fillRow s y).board := by
  unfold fillRow
  split
  · exact h
  · exact foldl_preserve (fun b x hb => updateCell_shape b _ x 1 hb) _ _ h

theorem handleAction_shape (i : GameInstance) (a : Option InputAction)
    (f : Bool) (nowMs : Int) (h : BoardShape i.state.board) :
    BoardShape (handleAction i a f nowMs).state.board := by
  unfold handleAction
  by_cases h1 : a = some InputAction.reset
  · rw [if_pos h1]
    exact createEmptyBoard_shape
  · rw [if_neg h1]
    split
    · exact h
    · split
      · exact h
      · match a with
        | some InputAction.left =>
          have := tryMove_board { i.state with softDropActive := f } (-1) 0
          exact this ▸ h
        | some InputAction.right =>
          have := tryMove_board { i.state with softDropActive := f } 1 0
          exact this ▸ h
        | some InputAction.rotate =>
          have := tryRotate_board { i.state with softDropActive := f }
          exact this ▸ h
        | some InputAction.hardDrop =>
          rcases hhd : hardDrop { i.state with softDropActive := f }
              (getRngSeed { i.state with softDropActive := f }) i.counter nowMs
            with ⟨res, s1, r1, cnt1⟩
          simp only [hhd]
          have := hardDrop_shape { i.state with softDropActive := f }
            (getRngSeed { i.state with softDropActive := f }) i.counter nowMs h
          rw [hhd] at this
          exact this
        | some InputAction.start => exact h
        | some InputAction.softDropDown => exact h
        | some InputAction.softDropUp => exact h
        | none => exact h

theorem tickSpawn_shape (s : TetrisState) (r cnt : Nat)
    (h : BoardShape s.board) : BoardShape (tickSpawn s r cnt).1.board := by
  unfold tickSpawn
  split
  · exact h
  · obtain ⟨p, np2, r2, cnt2, hsp, -, -, -⟩ := spawnNextPiece_char s r cnt
    rw [hsp]
    simp only []
    split <;> exact h

theorem phaseSpawn_shape (t : TetrisState × Nat × Nat)
    (h : BoardShape t.1.board) : BoardShape (phaseSpawn t).1.board := by
  unfold phaseSpawn
  split
  · exact tickSpawn_shape _ _ _ h
  · exact h

theorem phaseSoft_shape (t : TetrisState × Nat × Nat)
    (h : BoardShape t.1.board) : BoardShape (phaseSoft t).1.board := by
  unfold phaseSoft
  simp only []
  split
  · exact (tryMove_board t.1 0 (-1)) ▸ h
  · exact h

theorem phasePrime_shape (t : TetrisState × Nat × Nat)
    (h : BoardShape t.1.board) : BoardShape (phasePrime t).1.board := by
  unfold phasePrime
  simp only []
  split
  · exact h
  · exact h

theorem phaseGravity_shape (deltaMs : Nat) (nowMs : Int)
    (t : TetrisState × Nat × Nat) (h : BoardShape t.1.board) :
    BoardShape (phaseGravity deltaMs nowMs t).1.board := by
  unfold phaseGravity
  exact tickGravity_shape _ _ _ _ _ h

theorem phaseEmergency_shape (t : TetrisState × Nat × Nat)
    (h : BoardShape t.1.board) : BoardShape (phaseEmergency t).1.board := by
  unfold phaseEmergency
  split
  · exact tickSpawn_shape _ _ _ h
  · exact h

theorem tickMain_shape (i : GameInstance) (deltaMs : Nat) (nowMs : Int)
    (h : BoardShape i.state.board) :
    BoardShape (tickMain i deltaMs nowMs).state.board := by
  unfold tickMain
  exact phaseEmergency_shape _ (phaseGravity_shape _ _ _
    (phasePrime_shape _ (phaseSoft_shape _ (phaseSpawn_shape _ h))))

theorem tick_shape (i : GameInstance) (deltaMs : Nat) (nowMs : Int)
    (h : BoardShape i.state.board) :
    BoardShape (tick i deltaMs nowMs).state.board := by
  unfold tick
  simp only []
  split
  · exact h
  · split
    · exact h
    · split
      · split
        · exact h
        · exact tickMain_shape _ _ _ (finalizeLineClear_shape _ h)
      · exact tickMain_shape _ _ _ h

/-! ## Claim C2: reachable states keep the 20x10 board shape -/

/-- States reachable from `createInitialState` through any sequence of
engine operations (moves, rotations, soft/hard drops, gravity, locks,
`finalizeLineClear`, reset), orchestrator operations (`handleAction`,
`tick` at any `gameStarted`/counter), and the debug chat commands
(`/fillrow`, `/spawn`, `/speed`). -/
inductive ReachE : TetrisState → Prop where
  | init (seed cnt : Nat) : ReachE (createInitialState seed cnt).1
  | move {s} (dx dy : Int) : ReachE s → ReachE (tryMove s dx dy).2
  | rotate {s} : ReachE s → ReachE (tryRotate s).2
  | soft {s} : ReachE s → ReachE (softDrop s).2
  | hard {s} (r cnt : Nat) (nowMs : Int) : ReachE s →
      ReachE (hardDrop s r cnt nowMs).2.1
  | gravity {s} (deltaMs r cnt : Nat) (nowMs : Int) : ReachE s →
      ReachE (tickGravity s deltaMs r cnt nowMs).2.1
  | lock {s} (r cnt : Nat) (nowMs : Int) : ReachE s →
      ReachE (lockPiece s r cnt nowMs).2.1
  | finalize {s} : ReachE s → ReachE (finalizeLineClear s)
  | reset {s} (seed : Option Nat) (cnt : Nat) : ReachE s →
      ReachE (resetState s seed cnt).1
  | fill {s} (y : Int) : ReachE s → ReachE (fillRow s y)
  | forceNext {s} (t cnt : Nat) : ReachE s → ReachE (forceNextPiece s t cnt).1
  | speed {s} (ms : Int) : ReachE s →
      ReachE { s with gravityIntervalMs :=
        (clampGravityMs ms GRAVITY_MIN_MS GRAVITY_BASE_MS).toNat }
  | handle {s} (gs : Bool) (cnt : Nat) (a : Option InputAction) (f : Bool)
      (nowMs : Int) : ReachE s → ReachE (handleAction ⟨s, gs, cnt⟩ a f nowMs).state
  | tickOp {s} (gs : Bool) (cnt deltaMs : Nat) (nowMs : Int) : ReachE s →
      ReachE (tick ⟨s, gs, cnt⟩ deltaMs nowMs).state

/-- C2: every state reachable from `createInitialState` through any
sequence of engine, orchestrator and debug operations has a board of
exactly `BOARD_HEIGHT` (20) rows, each of exactly `BOARD_WIDTH` (10)
cells. -/
theorem board_shape_invariant (s : TetrisState) (h : ReachE s) :
    s.board.length = BOARD_HEIGHT ∧
      ∀ row ∈ s.board, row.length = BOARD_WIDTH := by
  show BoardShape s.board
  induction h with
  | init seed cnt => exact createEmptyBoard_shape
  | move dx dy _ ih => exact (tryMove_board _ dx dy).symm ▸ ih
  | rotate _ ih => exact (tryRotate_board _).symm ▸ ih
  | soft _ ih => exact (tryMove_board _ 0 (-1)).symm ▸ ih
  | hard r cnt nowMs _ ih => exact hardDrop_shape _ r cnt nowMs ih
  | gravity deltaMs r cnt nowMs _ ih =>
    exact tickGravity_shape _ deltaMs r cnt nowMs ih
  | lock r cnt nowMs _ ih =>
    exact (lockPiece_board _ r cnt nowMs) ▸ mergeAndClearLines_shape _ nowMs ih
  | finalize _ ih => exact finalizeLineClear_shape _ ih
  | reset seed cnt _ _ => exact resetState_shape _ seed cnt
  | fill y _ ih => exact fillRow_shape _ y ih
  | forceNext t cnt _ ih => exact ih
  | speed ms _ ih => exact ih
  | handle gs cnt a f nowMs _ ih => exact handleAction_shape _ a f nowMs ih
  | tickOp gs cnt deltaMs nowMs _ ih => exact tick_shape _ deltaMs nowMs ih

/-- Witness for C2 at a concrete input: a freshly created state, reached
by the `init` constructor. -/
theorem board_shape_invariant_witness :
    (createInitialState 0 0).1.board.length = BOARD_HEIGHT ∧
      ∀ row ∈ (createInitialState 0 0).1.board, row.length = BOARD_WIDTH :=
  board_shape_invariant (createInitialState 0 0).1 (ReachE.init 0 0)

/-! ## The gameplay invariant (claims C3, C8, C10) -/

/-- A pending line-clear flash is recorded. -/
def fxPending (s : TetrisState) : Prop := s.lineClearFxRows.getD [] ≠ []

instance (s : TetrisState) : Decidable (fxPending s) := by
  unfold fxPending
  infer_instance

/-- The combined invariant of states the orchestrator reaches: board
shape; while a clear is pending the active piece is absent or still the
untouched fresh spawn; a running piece outside a flash never collides;
the level matches the line count; once the level has risen past 1 the
gravity interval matches the level curve. -/
def Inv (s : TetrisState) : Prop :=
  BoardShape s.board ∧
  (fxPending s → s.activePiece = none ∨
    ∃ p, s.activePiece = some p ∧ p.x = SPAWN_X ∧ p.y = SPAWN_Y) ∧
  (s.gameStatus = GameStatus.RUNNING → ¬ fxPending s →
    ∀ p, s.activePiece = some p → collides s.board p = false) ∧
  s.level = s.lines / LINES_PER_LEVEL + 1 ∧
  (2 ≤ s.level → s.gravityIntervalMs =
    (clampGravityMs
      (GRAVITY_BASE_MS - (s.level : Int) * GRAVITY_DECREASE_PER_LEVEL_MS)
      GRAVITY_MIN_MS GRAVITY_BASE_MS).toNat)

theorem Inv_init (seed cnt : Nat) : Inv (createInitialState seed cnt).1 := by
  have hl : (createInitialState seed cnt).1.level = 1 := rfl
  have hn : (createInitialState seed cnt).1.lines = 0 := rfl
  refine ⟨createEmptyBoard_shape, ?_, ?_, by rw [hl, hn]; rfl, ?_⟩
  · intro hfx
    exact absurd rfl hfx
  · intro _ _ p hp
    injection hp with hp
    exact collides_spawn _ p (congrArg PieceState.x hp.symm)
      (congrArg PieceState.y hp.symm)
  · intro h2
    rw [hl] at h2
    omega

theorem Inv_tryMove (s : TetrisState) (dx dy : Int) (h : Inv s)
    (hfx : ¬ fxPending s) :
    Inv (tryMove s dx dy).2 ∧ ¬ fxPending (tryMove s dx dy).2 := by
  rcases tryMove_cases s dx dy with heq | ⟨p, hp, hst, hcol, heq⟩
  · rw [heq]
    exact ⟨h, hfx⟩
  · rw [heq]
    obtain ⟨h1, h2, h3, h4, h5⟩ := h
    refine ⟨⟨h1, ?_, ?_, h4, h5⟩, hfx⟩
    · intro hpend
      exact absurd hpend hfx
    · intro _ _ q hq
      injection hq with hq
      rw [← hq]
      exact hcol

theorem Inv_tryRotate (s : TetrisState) (h : Inv s) (hfx : ¬ fxPending s) :
    Inv (tryRotate s).2 ∧ ¬ fxPending (tryRotate s).2 := by
  rcases tryRotate_cases s with heq | ⟨p, o, hp, hst, hcol, heq⟩
  · rw [heq]
    exact ⟨h, hfx⟩
  · rw [heq]
    obtain ⟨h1, h2, h3, h4, h5⟩ := h
    refine ⟨⟨h1, ?_, ?_, h4, h5⟩, hfx⟩
    · intro hpend
      exact absurd hpend hfx
    · intro _ _ q hq
      injection hq with hq
      rw [← hq]
      exact hcol

/-- `mergeAndClearLines` either ends with no active piece (some piece was
merged) or is the identity (there was nothing to merge). -/
theorem mergeAndClearLines_piece (s : TetrisState) (nowMs : Int) :
    (mergeAndClearLines s nowMs).2.activePiece = none ∨
    (mergeAndClearLines s nowMs).2 = s := by
  unfold mergeAndClearLines
  cases hp : s.activePiece with
  | none => right; rfl
  | some p =>
    simp only []
    split
    · left; rfl
    · rw [applyLineClearScoring_eq]
      left; rfl

/-- Level bookkeeping of `mergeAndClearLines`: the level/lines relation
and the interval curve of the invariant are preserved, and the level never
decreases. -/
theorem mergeAndClearLines_level (s : TetrisState) (nowMs : Int)
    (h4 : s.level = s.lines / LINES_PER_LEVEL + 1)
    (h5 : 2 ≤ s.level → s.gravityIntervalMs =
      (clampGravityMs
        (GRAVITY_BASE_MS - (s.level : Int) * GRAVITY_DECREASE_PER_LEVEL_MS)
        GRAVITY_MIN_MS GRAVITY_BASE_MS).toNat) :
    (mergeAndClearLines s nowMs).2.level =
        (mergeAndClearLines s nowMs).2.lines / LINES_PER_LEVEL + 1 ∧
    (2 ≤ (mergeAndClearLines s nowMs).2.level →
      (mergeAndClearLines s nowMs).2.gravityIntervalMs =
        (clampGravityMs
          (GRAVITY_BASE_MS -
            ((mergeAndClearLines s nowMs).2.level : Int) *
              GRAVITY_DECREASE_PER_LEVEL_MS)
          GRAVITY_MIN_MS GRAVITY_BASE_MS).toNat) ∧
    s.level ≤ (mergeAndClearLines s nowMs).2.level := by
  unfold mergeAndClearLines
  cases hp : s.activePiece with
  | none => exact ⟨h4, h5, le_refl _⟩
  | some p =>
    simp only []
    split
    · exact ⟨h4, h5, le_refl _⟩
    · rw [applyLineClearScoring_eq]
      simp only []
      have hmono : ∀ m : Nat, s.level ≤ (s.lines + m) / LINES_PER_LEVEL + 1 := by
        intro m
        rw [h4]
        have := Nat.div_le_div_right (c := LINES_PER_LEVEL)
          (Nat.le_add_right s.lines m)
        omega
      have key : ∀ m : Nat,
          ¬ ((s.lines + m) / LINES_PER_LEVEL + 1 > s.level) →
          2 ≤ (s.lines + m) / LINES_PER_LEVEL + 1 →
          s.gravityIntervalMs =
            (clampGravityMs
              (GRAVITY_BASE_MS -
                (((s.lines + m) / LINES_PER_LEVEL + 1 : Nat) : Int) *
                  GRAVITY_DECREASE_PER_LEVEL_MS)
              GRAVITY_MIN_MS GRAVITY_BASE_MS).toNat := by
        intro m hnot h2
        have := hmono m
        have heq : (s.lines + m) / LINES_PER_LEVEL + 1 = s.level := by omega
        rw [heq]
        exact h5 (by omega)
      refine ⟨trivial, ?_, ?_⟩
      · intro h2
        split
        · rfl
        · next hnot => exact key _ hnot h2
      · exact hmono _

theorem Inv_merge (s : TetrisState) (nowMs : Int) (h : Inv s) :
    Inv (mergeAndClearLines s nowMs).2 ∧
      s.level ≤ (mergeAndClearLines s nowMs).2.level := by
  obtain ⟨h1, h2, h3, h4, h5⟩ := h
  obtain ⟨hlv, hint, hmono⟩ := mergeAndClearLines_level s nowMs h4 h5
  have hshape := mergeAndClearLines_shape s nowMs h1
  rcases mergeAndClearLines_piece s nowMs with hnone | heq
  · refine ⟨⟨hshape, fun _ => Or.inl hnone, ?_, hlv, hint⟩, hmono⟩
    intro _ _ q hq
    rw [hnone] at hq
    cases hq
  · rw [heq]
    exact ⟨⟨h1, h2, h3, h4, h5⟩, le_refl _⟩

theorem fxPending_finalize (s : TetrisState) :
    ¬ fxPending (finalizeLineClear s) := by
  unfold finalizeLineClear
  cases hfx : s.lineClearFxRows with
  | none =>
    unfold fxPending
    rw [hfx]
    simp
  | some rows =>
    simp only []
    split
    · next hnil =>
      unfold fxPending
      rw [hfx, hnil]
      simp
    · unfold fxPending
      simp

theorem finalizeLineClear_frame (s : TetrisState) :
    (finalizeLineClear s).activePiece = s.activePiece ∧
    (finalizeLineClear s).gameStatus = s.gameStatus ∧
    (finalizeLineClear s).level = s.level ∧
    (finalizeLineClear s).lines = s.lines ∧
    (finalizeLineClear s).gravityIntervalMs = s.gravityIntervalMs := by
  unfold finalizeLineClear
  cases hfx : s.lineClearFxRows with
  | none => exact ⟨rfl, rfl, rfl, rfl, rfl⟩
  | some rows =>
    simp only []
    split
    · exact ⟨rfl, rfl, rfl, rfl, rfl⟩
    · exact ⟨rfl, rfl, rfl, rfl, rfl⟩

theorem Inv_finalize (s : TetrisState) (h : Inv s) :
    Inv (finalizeLineClear s) := by
  obtain ⟨h1, h2, h3, h4, h5⟩ := h
  obtain ⟨hf1, hf2, hf3, hf4, hf5⟩ := finalizeLineClear_frame s
  refine ⟨finalizeLineClear_shape s h1, ?_, ?_, ?_, ?_⟩
  · intro hpend
    exact absurd hpend (fxPending_finalize s)
  · intro hst hfx q hq
    rw [hf1] at hq
    by_cases hpend : fxPending s
    · rcases h2 hpend with hnone | ⟨p, hp, hx, hy⟩
      · rw [hnone] at hq
        cases hq
      · rw [hp] at hq
        injection hq with hq
        exact collides_spawn _ q (hq ▸ hx) (hq ▸ hy)
    · have hcb := h3 (hf2 ▸ hst) hpend q hq
      -- without a pending flash, finalize is the identity
      have hid : finalizeLineClear s = s := by
        unfold finalizeLineClear
        cases hfxr : s.lineClearFxRows with
        | none => rfl
        | some rows =>
          have hnil : rows = [] := by
            unfold fxPending at hpend
            rw [hfxr] at hpend
            simpa using hpend
          simp only []
          rw [if_pos hnil]
      rw [hid]
      exact hcb
  · rw [hf3, hf4]
    exact h4
  · rw [hf3, hf5]
    exact h5

theorem tryMove_level (s : TetrisState) (dx dy : Int) :
    (tryMove s dx dy).2.level = s.level := by
  rcases tryMove_cases s dx dy with h | ⟨p, _, _, _, h⟩ <;> rw [h]

theorem tryRotate_level (s : TetrisState) :
    (tryRotate s).2.level = s.level := by
  rcases tryRotate_cases s with h | ⟨p, o, _, _, _, h⟩ <;> rw [h]

/-- The tail of `lockPiece` after the merge and the accumulator reset, as
a standalone function for the invariant proof. -/
def lockTail (s : TetrisState) (r cnt : Nat) (res : LineClearResult) :
    LineClearResult × TetrisState × Nat × Nat :=
  if (s.lineClearFxRows.getD []) ≠ [] then (res, s, r, cnt)
  else if stackReachedTop s.board then
    (res, { s with gameStatus := GameStatus.GAME_OVER, activePiece := none },
      r, cnt)
  else
    let (spawned, s, r, cnt) := spawnNextPiece s r cnt
    match spawned with
    | some pc =>
      if collides s.board pc then
        (res, { s with gameStatus := GameStatus.GAME_OVER, activePiece := none },
          r, cnt)
      else (res, s, r, cnt)
    | none => (res, s, r, cnt)

theorem lockPiece_eq_tail (s : TetrisState) (r cnt : Nat) (nowMs : Int) :
    lockPiece s r cnt nowMs =
      lockTail { (mergeAndClearLines s nowMs).2 with gravityAccumulatorMs := 0 }
        r cnt (mergeAndClearLines s nowMs).1 := by
  unfold lockPiece
  cases hm : mergeAndClearLines s nowMs with
  | mk res s1 => rfl

theorem Inv_lockTail (s : TetrisState) (r cnt : Nat) (res : LineClearResult)
    (h : Inv s) :
    Inv (lockTail s r cnt res).2.1 ∧
      (lockTail s r cnt res).2.1.level = s.level := by
  obtain ⟨h1, h2, h3, h4, h5⟩ := h
  unfold lockTail
  split
  · exact ⟨⟨h1, h2, h3, h4, h5⟩, rfl⟩
  · split
    · refine ⟨⟨h1, fun _ => Or.inl rfl, ?_, h4, h5⟩, rfl⟩
      intro hst
      simp at hst
    · obtain ⟨p, np2, r2, cnt2, hsp, hx, hy, -⟩ := spawnNextPiece_char s r cnt
      rw [hsp]
      simp only []
      split
      · next hc =>
        rw [collides_spawn _ p hx hy] at hc
        cases hc
      · refine ⟨⟨h1, fun _ => Or.inr ⟨p, rfl, hx, hy⟩, ?_, h4, h5⟩, rfl⟩
        intro _ _ q hq
        injection hq with hq
        rw [← hq]
        exact collides_spawn _ p hx hy

theorem Inv_lockPiece (s : TetrisState) (r cnt : Nat) (nowMs : Int)
    (h : Inv s) :
    Inv (lockPiece s r cnt nowMs).2.1 ∧
      s.level ≤ (lockPiece s r cnt nowMs).2.1.level := by
  obtain ⟨hIm, hmono⟩ := Inv_merge s nowMs h
  have hIm2 :
      Inv { (mergeAndClearLines s nowMs).2 with gravityAccumulatorMs := 0 } :=
    hIm
  obtain ⟨hI, hlv⟩ :=
    Inv_lockTail { (mergeAndClearLines s nowMs).2 with gravityAccumulatorMs := 0 }
      r cnt (mergeAndClearLines s nowMs).1 hIm2
  rw [lockPiece_eq_tail]
  refine ⟨hI, ?_⟩
  rw [hlv]
  exact hmono

theorem hardLoopF_succ (f : Nat) (s : TetrisState) :
    hardLoopF (f + 1) s =
      match tryMove s 0 (-1) with
      | (true, s') => hardLoopF f s'
      | (false, _) => s := rfl

theorem gravLoopF_succ (f : Nat) (s : TetrisState) (interval r cnt : Nat)
    (nowMs : Int) :
    gravLoopF (f + 1) s interval r cnt nowMs =
      (if interval ≤ s.gravityAccumulatorMs then
        let s1 := { s with gravityAccumulatorMs :=
          s.gravityAccumulatorMs - interval }
        match tryMove s1 0 (-1) with
        | (true, s2) => gravLoopF f s2 interval r cnt nowMs
        | (false, _) =>
          let (res, s3, r3, cnt3) := lockPiece s1 r cnt nowMs
          (some res, s3, r3, cnt3)
      else (none, s, r, cnt)) := rfl

theorem Inv_hardLoopF (fuel : Nat) : ∀ s : TetrisState, Inv s →
    ¬ fxPending s →
    Inv (hardLoopF fuel s) ∧ ¬ fxPending (hardLoopF fuel s) ∧
      (hardLoopF fuel s).level = s.level := by
  induction fuel with
  | zero => intro s h hfx; exact ⟨h, hfx, rfl⟩
  | succ f ih =>
    intro s h hfx
    rw [hardLoopF_succ]
    rcases htm : tryMove s 0 (-1) with ⟨b, s2⟩
    try simp only [htm]
    cases b
    · exact ⟨h, hfx, rfl⟩
    · have hmv := Inv_tryMove s 0 (-1) h hfx
      rw [htm] at hmv
      have hl2 := tryMove_level s 0 (-1)
      rw [htm] at hl2
      obtain ⟨ha, hb, hc⟩ := ih s2 hmv.1 hmv.2
      exact ⟨ha, hb, by rw [hc]; exact hl2⟩

theorem Inv_hardDrop (s : TetrisState) (r cnt : Nat) (nowMs : Int)
    (h : Inv s) (hfx : ¬ fxPending s) :
    Inv (hardDrop s r cnt nowMs).2.1 ∧
      s.level ≤ (hardDrop s r cnt nowMs).2.1.level := by
  unfold hardDrop
  cases hp : s.activePiece with
  | none => exact ⟨h, le_refl _⟩
  | some p =>
    simp only []
    split
    · exact ⟨h, le_refl _⟩
    · obtain ⟨hI, hfx2, hlv⟩ := Inv_hardLoopF (pieceMeasure s + 1) s h hfx
      obtain ⟨hL, hmono⟩ :=
        Inv_lockPiece (hardLoopF (pieceMeasure s + 1) s) r cnt nowMs hI
      refine ⟨hL, ?_⟩
      show s.level ≤
        (lockPiece (hardLoopF (pieceMeasure s + 1) s) r cnt nowMs).2.1.level
      omega

theorem Inv_gravLoopF (fuel : Nat) : ∀ (s : TetrisState)
    (interval r cnt : Nat) (nowMs : Int), Inv s → ¬ fxPending s →
    Inv (gravLoopF fuel s interval r cnt nowMs).2.1 ∧
      s.level ≤ (gravLoopF fuel s interval r cnt nowMs).2.1.level := by
  induction fuel with
  | zero => intro s interval r cnt nowMs h hfx; exact ⟨h, le_refl _⟩
  | succ f ih =>
    intro s interval r cnt nowMs h hfx
    rw [gravLoopF_succ]
    split
    · next hacc =>
      have h1 : Inv { s with gravityAccumulatorMs :=
          s.gravityAccumulatorMs - interval } := h
      have hfx1 : ¬ fxPending { s with gravityAccumulatorMs :=
          s.gravityAccumulatorMs - interval } := hfx
      rcases htm : tryMove { s with gravityAccumulatorMs :=
          s.gravityAccumulatorMs - interval } 0 (-1) with ⟨b, s2⟩
      try simp only [htm]
      cases b
      · have hlk := Inv_lockPiece { s with gravityAccumulatorMs :=
            s.gravityAccumulatorMs - interval } r cnt nowMs h1
        cases hl : lockPiece { s with gravityAccumulatorMs :=
            s.gravityAccumulatorMs - interval } r cnt nowMs with
        | mk res rest =>
          cases rest with
          | mk s3 rest2 =>
            cases rest2 with
            | mk r3 cnt3 =>
              rw [hl] at hlk
              exact hlk
      · have hmv := Inv_tryMove { s with gravityAccumulatorMs :=
            s.gravityAccumulatorMs - interval } 0 (-1) h1 hfx1
        rw [htm] at hmv
        have hl2 := tryMove_level { s with gravityAccumulatorMs :=
            s.gravityAccumulatorMs - interval } 0 (-1)
        rw [htm] at hl2
        obtain ⟨ha, hb⟩ := ih s2 interval r cnt nowMs hmv.1 hmv.2
        refine ⟨ha, ?_⟩
        have hs2 : s2.level = s.level := hl2
        rw [← hs2]
        exact hb
    · exact ⟨h, le_refl _⟩

theorem Inv_tickGravity (s : TetrisState) (d r cnt : Nat) (nowMs : Int)
    (h : Inv s) (hfx : ¬ fxPending s) :
    Inv (tickGravity s d r cnt nowMs).2.1 ∧
      s.level ≤ (tickGravity s d r cnt nowMs).2.1.level := by
  unfold tickGravity gravLoop
  split
  · exact ⟨h, le_refl _⟩
  · have h1 : Inv { s with gravityAccumulatorMs :=
        s.gravityAccumulatorMs + d } := h
    have hfx1 : ¬ fxPending { s with gravityAccumulatorMs :=
        s.gravityAccumulatorMs + d } := hfx
    exact Inv_gravLoopF _ _ _ _ _ _ h1 hfx1

theorem Inv_tickSpawn (s : TetrisState) (r cnt : Nat) (h : Inv s) :
    Inv (tickSpawn s r cnt).1 ∧
      (tickSpawn s r cnt).1.lineClearFxRows = s.lineClearFxRows ∧
      (tickSpawn s r cnt).1.level = s.level := by
  obtain ⟨h1, h2, h3, h4, h5⟩ := h
  unfold tickSpawn
  split
  · refine ⟨⟨h1, h2, ?_, h4, h5⟩, rfl, rfl⟩
    intro hst
    simp at hst
  · obtain ⟨p, np2, r2, cnt2, hsp, hx, hy, -⟩ := spawnNextPiece_char s r cnt
    rw [hsp]
    simp only []
    split
    · next hc =>
      rw [collides_spawn _ p hx hy] at hc
      cases hc
    · refine ⟨⟨h1, fun _ => Or.inr ⟨p, rfl, hx, hy⟩, ?_, h4, h5⟩, rfl, rfl⟩
      intro _ _ q hq
      injection hq with hq
      rw [← hq]
      exact collides_spawn _ p hx hy

theorem Inv_phaseSpawn (t : TetrisState × Nat × Nat) (h : Inv t.1)
    (hfx : ¬ fxPending t.1) :
    Inv (phaseSpawn t).1 ∧ ¬ fxPending (phaseSpawn t).1 ∧
      (phaseSpawn t).1.level = t.1.level := by
  unfold phaseSpawn
  split
  · obtain ⟨hI, hfxeq, hlv⟩ := Inv_tickSpawn t.1 t.2.1 t.2.2 h
    refine ⟨hI, ?_, hlv⟩
    intro hp
    unfold fxPending at hp
    rw [hfxeq] at hp
    exact hfx hp
  · exact ⟨h, hfx, rfl⟩

theorem Inv_phaseSoft (t : TetrisState × Nat × Nat) (h : Inv t.1)
    (hfx : ¬ fxPending t.1) :
    Inv (phaseSoft t).1 ∧ ¬ fxPending (phaseSoft t).1 ∧
      (phaseSoft t).1.level = t.1.level := by
  unfold phaseSoft
  split
  · obtain ⟨hI, hfx2⟩ := Inv_tryMove t.1 0 (-1) h hfx
    exact ⟨hI, hfx2, tryMove_level t.1 0 (-1)⟩
  · exact ⟨h, hfx, rfl⟩

theorem Inv_phasePrime (t : TetrisState × Nat × Nat) (h : Inv t.1)
    (hfx : ¬ fxPending t.1) :
    Inv (phasePrime t).1 ∧ ¬ fxPending (phasePrime t).1 ∧
      (phasePrime t).1.level = t.1.level := by
  unfold phasePrime
  split
  · exact ⟨h, hfx, rfl⟩
  · exact ⟨h, hfx, rfl⟩

theorem Inv_phaseGravity (d : Nat) (nowMs : Int) (t : TetrisState × Nat × Nat)
    (h : Inv t.1) (hfx : ¬ fxPending t.1) :
    Inv (phaseGravity d nowMs t).1 ∧
      t.1.level ≤ (phaseGravity d nowMs t).1.level := by
  unfold phaseGravity
  exact Inv_tickGravity t.1 (min 500 (max 50 d)) t.2.1 t.2.2 nowMs h hfx

theorem Inv_phaseEmergency (t : TetrisState × Nat × Nat) (h : Inv t.1) :
    Inv (phaseEmergency t).1 ∧ (phaseEmergency t).1.level = t.1.level := by
  unfold phaseEmergency
  split
  · obtain ⟨hI, -, hlv⟩ := Inv_tickSpawn t.1 t.2.1 t.2.2 h
    exact ⟨hI, hlv⟩
  · exact ⟨h, rfl⟩

theorem Inv_tickMain (i : GameInstance) (d : Nat) (nowMs : Int)
    (h : Inv i.state) (hfx : ¬ fxPending i.state) :
    Inv (tickMain i d nowMs).state ∧
      i.state.level ≤ (tickMain i d nowMs).state.level := by
  obtain ⟨h1, hfx1, hl1⟩ :=
    Inv_phaseSpawn (i.state, getRngSeed i.state, i.counter) h hfx
  obtain ⟨h2, hfx2, hl2⟩ :=
    Inv_phaseSoft (phaseSpawn (i.state, getRngSeed i.state, i.counter)) h1 hfx1
  obtain ⟨h3, hfx3, hl3⟩ :=
    Inv_phasePrime (phaseSoft (phaseSpawn
      (i.state, getRngSeed i.state, i.counter))) h2 hfx2
  obtain ⟨h4, hl4⟩ :=
    Inv_phaseGravity d nowMs (phasePrime (phaseSoft (phaseSpawn
      (i.state, getRngSeed i.state, i.counter)))) h3 hfx3
  obtain ⟨h5, hl5⟩ :=
    Inv_phaseEmergency (phaseGravity d nowMs (phasePrime (phaseSoft (phaseSpawn
      (i.state, getRngSeed i.state, i.counter))))) h4
  refine ⟨h5, ?_⟩
  show i.state.level ≤
    (phaseEmergency (phaseGravity d nowMs (phasePrime (phaseSoft (phaseSpawn
      (i.state, getRngSeed i.state, i.counter)))))).1.level
  rw [hl5]
  refine le_trans ?_ hl4
  rw [hl3, hl2, hl1]

theorem Inv_tick (i : GameInstance) (d : Nat) (nowMs : Int)
    (h : Inv i.state) :
    Inv (tick i d nowMs).state ∧
      i.state.level ≤ (tick i d nowMs).state.level := by
  unfold tick
  simp only []
  split
  · exact ⟨h, le_refl _⟩
  · split
    · exact ⟨h, le_refl _⟩
    · split
      · split
        · exact ⟨h, le_refl _⟩
        · have hIf : Inv (finalizeLineClear i.state) := Inv_finalize i.state h
          have hfxf : ¬ fxPending (finalizeLineClear i.state) :=
            fxPending_finalize i.state
          obtain ⟨hI, hlv⟩ :=
            Inv_tickMain { i with state := finalizeLineClear i.state } d nowMs
              hIf hfxf
          refine ⟨hI, ?_⟩
          obtain ⟨-, -, hfl, -, -⟩ := finalizeLineClear_frame i.state
          rw [← hfl]
          exact hlv
      · next hnfx =>
        exact Inv_tickMain i d nowMs h hnfx

theorem Inv_handleAction (i : GameInstance) (a : Option InputAction)
    (f : Bool) (nowMs : Int) (h : Inv i.state) :
    Inv (handleAction i a f nowMs).state ∧
      i.state.level ≤ (handleAction i a f nowMs).state.level ∨
    a = some InputAction.reset := by
  by_cases hres : a = some InputAction.reset
  · exact Or.inr hres
  · left
    unfold handleAction
    simp only []
    rw [if_neg hres]
    have hs : Inv { i.state with softDropActive := f } := h
    split
    · exact ⟨hs, le_refl _⟩
    · split
      · exact ⟨hs, le_refl _⟩
      · next hfxn hguard =>
        have hfx : ¬ fxPending { i.state with softDropActive := f } := hfxn
        rcases a with - | act
        · exact ⟨hs, le_refl _⟩
        · cases act with
          | start => exact ⟨hs, le_refl _⟩
          | left =>
            obtain ⟨hI, -⟩ := Inv_tryMove { i.state with softDropActive := f }
              (-1) 0 hs hfx
            exact ⟨hI,
              le_of_eq (tryMove_level { i.state with softDropActive := f }
                (-1) 0).symm⟩
          | right =>
            obtain ⟨hI, -⟩ := Inv_tryMove { i.state with softDropActive := f }
              1 0 hs hfx
            exact ⟨hI,
              le_of_eq (tryMove_level { i.state with softDropActive := f }
                1 0).symm⟩
          | rotate =>
            obtain ⟨hI, -⟩ :=
              Inv_tryRotate { i.state with softDropActive := f } hs hfx
            exact ⟨hI,
              le_of_eq
                (tryRotate_level { i.state with softDropActive := f }).symm⟩
          | softDropDown => exact ⟨hs, le_refl _⟩
          | softDropUp => exact ⟨hs, le_refl _⟩
          | hardDrop =>
            have hhd := Inv_hardDrop { i.state with softDropActive := f }
              (getRngSeed { i.state with softDropActive := f }) i.counter
              nowMs hs hfx
            cases hh : hardDrop { i.state with softDropActive := f }
                (getRngSeed { i.state with softDropActive := f }) i.counter
                nowMs with
            | mk res rest =>
              cases rest with
              | mk s1 rest2 =>
                cases rest2 with
                | mk r1 cnt1 =>
                  rw [hh] at hhd
                  exact hhd
          | reset => exact ⟨hs, le_refl _⟩

theorem Inv_handleAction_state (i : GameInstance) (a : Option InputAction)
    (f : Bool) (nowMs : Int) (h : Inv i.state) :
    Inv (handleAction i a f nowMs).state := by
  rcases Inv_handleAction i a f nowMs h with ⟨hI, -⟩ | hres
  · exact hI
  · unfold handleAction
    rw [if_pos hres]
    have hini :
        Inv (resetState { i.state with softDropActive := f } none i.counter).1 := by
      unfold resetState
      exact Inv_init _ _
    cases hr : resetState { i.state with softDropActive := f } none
        i.counter with
    | mk s1 cnt1 =>
      rw [hr] at hini
      exact hini

/-- Instances reachable through the public driver: construction, the
`start` wiring, `handleAction`, and `tick`. -/
inductive ReachG : GameInstance → Prop where
  | init (seed cnt : Nat) : ReachG (mkInstance seed cnt)
  | start {i : GameInstance} : ReachG i → ReachG (setGameStarted i)
  | handle {i : GameInstance} (a : Option InputAction) (f : Bool)
      (nowMs : Int) : ReachG i → ReachG (handleAction i a f nowMs)
  | tickOp {i : GameInstance} (d : Nat) (nowMs : Int) :
      ReachG i → ReachG (tick i d nowMs)

theorem reachG_inv : ∀ {i : GameInstance}, ReachG i → Inv i.state := by
  intro i h
  induction h with
  | init seed cnt =>
    have hini := Inv_init seed cnt
    unfold mkInstance
    cases hc : createInitialState seed cnt with
    | mk s cnt1 =>
      rw [hc] at hini
      exact hini
  | start _ ih => exact ih
  | handle a f nowMs _ ih => exact Inv_handleAction_state _ a f nowMs ih
  | tickOp d nowMs _ ih => exact (Inv_tick _ d nowMs ih).1

/-! ## Claim C3: the active piece never overlaps the stack -/

/-- The state exhibited against C3 as stated over the full operation set:
move the freshly spawned J piece down twice into the playable rows, then
let the `/fillrow` debug command fill row 19 underneath it. -/
def c3CexState : TetrisState :=
  fillRow (tryMove (tryMove (createInitialState 0 0).1 0 (-1)).2 0 (-1)).2 19

/-- C3 (counterexample to the unrestricted reading): among the states
reachable through the same engine-and-debug operation set as claim C2,
there is a RUNNING state with no pending line clear whose active piece
occupies playable-row cells that are non-empty on the board — `fillRow`
writes under the active piece without any collision check. -/
theorem active_piece_overlap_cex :
    ReachE c3CexState ∧ c3CexState.gameStatus = GameStatus.RUNNING ∧
    (c3CexState.lineClearFxRows.getD []) = [] ∧
    c3CexState.activePiece = some ⟨1, 6, 0, 3, 18⟩ ∧
    ∃ c ∈ getPieceCells (⟨1, 6, 0, 3, 18⟩ : PieceState),
      0 ≤ c.2 ∧ c.2 < (BOARD_HEIGHT : Int) ∧
        cellAt c3CexState.board c.2 c.1 ≠ 0 := by
  refine ⟨?_, by decide, by decide, by decide, by decide⟩
  exact ReachE.fill 19 (ReachE.move 0 (-1) (ReachE.move 0 (-1)
    (ReachE.init 0 0)))

/-- C3 (amended): restricted to the driver interface (construction, the
start wiring, `handleAction` and `tick` — no debug commands), every
reachable RUNNING state with no pending line clear keeps the active
piece's playable-row cells on empty board cells. -/
theorem active_piece_no_overlap (i : GameInstance) (h : ReachG i)
    (hrun : i.state.gameStatus = GameStatus.RUNNING)
    (hfx : (i.state.lineClearFxRows.getD []) = []) :
    ∀ p, i.state.activePiece = some p →
      ∀ c ∈ getPieceCells p, 0 ≤ c.2 → c.2 < (BOARD_HEIGHT : Int) →
        cellAt i.state.board c.2 c.1 = 0 := by
  intro p hp c hc h0 hlt
  have hnfx : ¬ fxPending i.state := by
    unfold fxPending
    rw [hfx]
    simp
  have hcol := (reachG_inv h).2.2.1 hrun hnfx p hp
  unfold collides at hcol
  rw [List.any_eq_false] at hcol
  have hcell := hcol c hc
  simp only [Bool.or_eq_true, Bool.and_eq_true, decide_eq_true_eq] at hcell
  by_contra hne
  exact hcell (Or.inr ⟨hlt, hne⟩)

theorem active_piece_no_overlap_witness :
    ReachG (tick (setGameStarted (mkInstance 0 0)) 500 1000) ∧
    (tick (setGameStarted (mkInstance 0 0)) 500 1000).state.gameStatus =
      GameStatus.RUNNING ∧
    ((tick (setGameStarted (mkInstance 0 0)) 500
        1000).state.lineClearFxRows.getD []) = [] ∧
    (∀ p, (tick (setGameStarted (mkInstance 0 0)) 500
        1000).state.activePiece = some p →
      ∀ c ∈ getPieceCells p, 0 ≤ c.2 → c.2 < (BOARD_HEIGHT : Int) →
        cellAt (tick (setGameStarted (mkInstance 0 0)) 500
          1000).state.board c.2 c.1 = 0) :=
  ⟨ReachG.tickOp 500 1000 (ReachG.start (ReachG.init 0 0)),
    by decide, by decide,
    active_piece_no_overlap (tick (setGameStarted (mkInstance 0 0)) 500 1000)
      (ReachG.tickOp 500 1000 (ReachG.start (ReachG.init 0 0)))
      (by decide) (by decide)⟩

/-! ## Claim C8: level and gravity-interval curve -/

/-- The state exhibited against C8: fill row 0, then hard-drop the first
piece onto it.  The lock clears one row, but `applyLineClearScoring` only
recomputes the gravity interval when the level increases, and
`1/10 + 1 = 1` is not an increase — the interval stays at the base
800 ms instead of the claimed `clamp(800 − 1·60) = 740`. -/
def c8CexState : TetrisState :=
  (hardDrop (fillRow (createInitialState 0 0).1 0)
    (fillRow (createInitialState 0 0).1 0).rngState 2 1000).2.1

/-- C8 (counterexample): a reachable state directly after a successful
clear (`lastLinesCleared = 1`) whose gravity interval is 800 ms although
the claimed formula `clamp(800 − level·60, 100, 800)` yields 740 ms. -/
theorem level_speed_curve_cex :
    ReachE c8CexState ∧ c8CexState.lastLinesCleared = 1 ∧
    c8CexState.lines = 1 ∧ c8CexState.level = 1 ∧
    c8CexState.gravityIntervalMs = 800 ∧
    (clampGravityMs
      (GRAVITY_BASE_MS - (c8CexState.level : Int) *
        GRAVITY_DECREASE_PER_LEVEL_MS)
      GRAVITY_MIN_MS GRAVITY_BASE_MS).toNat = 740 := by
  refine ⟨?_, by decide, by decide, by decide, by decide, by decide⟩
  exact ReachE.hard (fillRow (createInitialState 0 0).1 0).rngState 2 1000
    (ReachE.fill 0 (ReachE.init 0 0))

/-- C8 (amended): in every driver-reachable instance the level equals
`⌊lines/10⌋ + 1`; the gravity interval matches the clamp formula once the
level has risen past 1 (at level 1 it keeps its previous value, e.g. the
base 800 ms, because the interval is only recomputed on a level-up); and
within one game — under any non-reset action and any tick — the level
never decreases. -/
theorem level_speed_curve (i : GameInstance) (h : ReachG i) :
    i.state.level = i.state.lines / LINES_PER_LEVEL + 1 ∧
    (2 ≤ i.state.level → i.state.gravityIntervalMs =
      (clampGravityMs
        (GRAVITY_BASE_MS - (i.state.level : Int) *
          GRAVITY_DECREASE_PER_LEVEL_MS)
        GRAVITY_MIN_MS GRAVITY_BASE_MS).toNat) ∧
    (∀ a f nowMs, a ≠ some InputAction.reset →
      i.state.level ≤ (handleAction i a f nowMs).state.level) ∧
    (∀ d nowMs, i.state.level ≤ (tick i d nowMs).state.level) := by
  obtain ⟨-, -, -, h4, h5⟩ := reachG_inv h
  refine ⟨h4, h5, ?_, ?_⟩
  · intro a f nowMs hne
    rcases Inv_handleAction i a f nowMs (reachG_inv h) with ⟨-, hmono⟩ | hres
    · exact hmono
    · exact absurd hres hne
  · intro d nowMs
    exact (Inv_tick i d nowMs (reachG_inv h)).2

theorem level_speed_curve_witness :
    ReachG (mkInstance 0 0) ∧
    ((mkInstance 0 0).state.level =
        (mkInstance 0 0).state.lines / LINES_PER_LEVEL + 1 ∧
      (2 ≤ (mkInstance 0 0).state.level →
        (mkInstance 0 0).state.gravityIntervalMs =
          (clampGravityMs
            (GRAVITY_BASE_MS - ((mkInstance 0 0).state.level : Int) *
              GRAVITY_DECREASE_PER_LEVEL_MS)
            GRAVITY_MIN_MS GRAVITY_BASE_MS).toNat) ∧
      (∀ a f nowMs, a ≠ some InputAction.reset →
        (mkInstance 0 0).state.level ≤
          (handleAction (mkInstance 0 0) a f nowMs).state.level) ∧
      (∀ d nowMs, (mkInstance 0 0).state.level ≤
        (tick (mkInstance 0 0) d nowMs).state.level)) :=
  ⟨ReachG.init 0 0, level_speed_curve (mkInstance 0 0) (ReachG.init 0 0)⟩

/-! ## Claim C10: the piece during a pending line clear -/

/-- The state exhibited against C10: fill row 0, set a 100 ms gravity
interval via `/speed`, then tick four times.  The J piece drops onto the
filled row and locks; the clear starts the 180 ms flash — but the
emergency respawn at the end of `GameInstance.tick` runs without checking
the flash and spawns the next piece while `lineClearFxRows` is
non-empty. -/
def c10CexState : TetrisState :=
  (tick ⟨(tick ⟨(tick ⟨(tick ⟨{ fillRow (createInitialState 0 0).1 0 with
      gravityIntervalMs :=
        (clampGravityMs 100 GRAVITY_MIN_MS GRAVITY_BASE_MS).toNat }, true, 0⟩
    500 1000600).state, true, 0⟩ 500 1001100).state, true, 0⟩
    500 1001600).state, true, 0⟩ 500 1002100).state

/-- C10 (counterexample): a reachable state whose pending line-clear
record is non-empty while the active piece is not null — the emergency
respawn in `GameInstance.tick` spawns during the flash. -/
theorem pending_clear_piece_null_cex :
    ReachE c10CexState ∧ (c10CexState.lineClearFxRows.getD []) ≠ [] ∧
    c10CexState.activePiece ≠ none := by
  refine ⟨?_, by decide, by decide⟩
  exact ReachE.tickOp true 0 500 1002100 (ReachE.tickOp true 0 500 1001600
    (ReachE.tickOp true 0 500 1001100 (ReachE.tickOp true 0 500 1000600
      (ReachE.speed 100 (ReachE.fill 0 (ReachE.init 0 0))))))

/-- C10 (amended): in every driver-reachable instance with a pending
line-clear record, the active piece is either null or exactly an
untouched fresh spawn at the spawn point (the emergency respawn); and the
freeze semantics hold: any non-reset action during the flash only updates
the soft-drop flag, and a tick before the flash deadline is the
identity. -/
theorem pending_clear_piece_spawn_only (i : GameInstance) (h : ReachG i) :
    ((i.state.lineClearFxRows.getD []) ≠ [] →
      i.state.activePiece = none ∨
        ∃ p, i.state.activePiece = some p ∧ p.x = SPAWN_X ∧ p.y = SPAWN_Y) ∧
    (∀ a f nowMs, (i.state.lineClearFxRows.getD []) ≠ [] →
      a ≠ some InputAction.reset →
      handleAction i a f nowMs =
        { i with state := { i.state with softDropActive := f } }) ∧
    (∀ d nowMs, (i.state.lineClearFxRows.getD []) ≠ [] →
      nowMs < i.state.lineClearFxUntilMs → tick i d nowMs = i) := by
  refine ⟨fun hfx => (reachG_inv h).2.1 hfx, ?_, ?_⟩
  · intro a f nowMs hfx hne
    unfold handleAction
    simp only []
    rw [if_neg hne]
    split
    · rfl
    · next hcond => exact absurd hfx hcond
  · intro d nowMs hfx hlt
    -- `split` discharges the flash window tests with `hfx` and `hlt`
    unfold tick
    simp only []
    split
    · rfl
    · split <;> rfl

theorem pending_clear_piece_spawn_only_witness :
    ReachG (mkInstance 0 0) ∧
    ((((mkInstance 0 0).state.lineClearFxRows.getD []) ≠ [] →
      (mkInstance 0 0).state.activePiece = none ∨
        ∃ p, (mkInstance 0 0).state.activePiece = some p ∧
          p.x = SPAWN_X ∧ p.y = SPAWN_Y) ∧
    (∀ a f nowMs, (((mkInstance 0 0).state.lineClearFxRows.getD []) ≠ []) →
      a ≠ some InputAction.reset →
      handleAction (mkInstance 0 0) a f nowMs =
        { mkInstance 0 0 with state :=
          { (mkInstance 0 0).state with softDropActive := f } }) ∧
    (∀ d nowMs, (((mkInstance 0 0).state.lineClearFxRows.getD []) ≠ []) →
      nowMs < (mkInstance 0 0).state.lineClearFxUntilMs →
      tick (mkInstance 0 0) d nowMs = mkInstance 0 0)) :=
  ⟨ReachG.init 0 0,
    pending_clear_piece_spawn_only (mkInstance 0 0) (ReachG.init 0 0)⟩

/-! ## Claim C1: determinism across independent runs

The only process-global state the model carries is the piece-id counter
(`pieceIdCounter`), which feeds nothing but the render-only `id` strings
of the pieces.  `stripP`/`stripS` erase those ids; two runs related by
`stripS` stay related under every operation, with all boolean, scoring
and RNG outputs literally equal. -/

/-- Zero a piece's render-only id. -/
def stripP (p : PieceState) : PieceState := ⟨0, p.type, p.rotation, p.x, p.y⟩

/-- Zero the piece ids of a state; every other field is kept. -/
def stripS (s : TetrisState) : TetrisState :=
  { s with activePiece := s.activePiece.map stripP,
           nextPiece := s.nextPiece.map stripP }

theorem stripS_inj {s₁ s₂ : TetrisState} (h : stripS s₁ = stripS s₂) :
    s₁.gameStatus = s₂.gameStatus ∧ s₁.board = s₂.board ∧
    Option.map stripP s₁.activePiece = Option.map stripP s₂.activePiece ∧
    Option.map stripP s₁.nextPiece = Option.map stripP s₂.nextPiece ∧
    s₁.score = s₂.score ∧ s₁.level = s₂.level ∧ s₁.lines = s₂.lines ∧
    s₁.gravityAccumulatorMs = s₂.gravityAccumulatorMs ∧
    s₁.gravityIntervalMs = s₂.gravityIntervalMs ∧
    s₁.softDropActive = s₂.softDropActive ∧ s₁.seed = s₂.seed ∧
    s₁.rngState = s₂.rngState ∧ s₁.lastLinesCleared = s₂.lastLinesCleared ∧
    s₁.lastLineClearTimeMs = s₂.lastLineClearTimeMs ∧
    s₁.comboCount = s₂.comboCount ∧
    s₁.lineClearFxRows = s₂.lineClearFxRows ∧
    s₁.lineClearFxUntilMs = s₂.lineClearFxUntilMs := by
  have e1 := congrArg TetrisState.gameStatus h
  have e2 := congrArg TetrisState.board h
  have e3 := congrArg TetrisState.activePiece h
  have e4 := congrArg TetrisState.nextPiece h
  have e5 := congrArg TetrisState.score h
  have e6 := congrArg TetrisState.level h
  have e7 := congrArg TetrisState.lines h
  have e8 := congrArg TetrisState.gravityAccumulatorMs h
  have e9 := congrArg TetrisState.gravityIntervalMs h
  have e10 := congrArg TetrisState.softDropActive h
  have e11 := congrArg TetrisState.seed h
  have e12 := congrArg TetrisState.rngState h
  have e13 := congrArg TetrisState.lastLinesCleared h
  have e14 := congrArg TetrisState.lastLineClearTimeMs h
  have e15 := congrArg TetrisState.comboCount h
  have e16 := congrArg TetrisState.lineClearFxRows h
  have e17 := congrArg TetrisState.lineClearFxUntilMs h
  exact ⟨e1, e2, e3, e4, e5, e6, e7, e8, e9, e10, e11, e12, e13, e14, e15,
    e16, e17⟩

theorem stripS_ext {s₁ s₂ : TetrisState}
    (hgs : s₁.gameStatus = s₂.gameStatus) (hb : s₁.board = s₂.board)
    (hap : Option.map stripP s₁.activePiece = Option.map stripP s₂.activePiece)
    (hnp : Option.map stripP s₁.nextPiece = Option.map stripP s₂.nextPiece)
    (hsc : s₁.score = s₂.score) (hlv : s₁.level = s₂.level)
    (hln : s₁.lines = s₂.lines)
    (hga : s₁.gravityAccumulatorMs = s₂.gravityAccumulatorMs)
    (hgi : s₁.gravityIntervalMs = s₂.gravityIntervalMs)
    (hsd : s₁.softDropActive = s₂.softDropActive)
    (hse : s₁.seed = s₂.seed) (hrn : s₁.rngState = s₂.rngState)
    (hllc : s₁.lastLinesCleared = s₂.lastLinesCleared)
    (hlt : s₁.lastLineClearTimeMs = s₂.lastLineClearTimeMs)
    (hcb : s₁.comboCount = s₂.comboCount)
    (hfxr : s₁.lineClearFxRows = s₂.lineClearFxRows)
    (hfxu : s₁.lineClearFxUntilMs = s₂.lineClearFxUntilMs) :
    stripS s₁ = stripS s₂ := by
  unfold stripS
  rw [hgs, hb, hap, hnp, hsc, hlv, hln, hga, hgi, hsd, hse, hrn, hllc, hlt,
    hcb, hfxr, hfxu]

theorem stripP_option_cases {o₁ o₂ : Option PieceState}
    (h : Option.map stripP o₁ = Option.map stripP o₂) :
    (o₁ = none ∧ o₂ = none) ∨
      ∃ p₁ p₂, o₁ = some p₁ ∧ o₂ = some p₂ ∧ stripP p₁ = stripP p₂ := by
  cases o₁ with
  | none =>
    cases o₂ with
    | none => exact Or.inl ⟨rfl, rfl⟩
    | some q => simp [Option.map] at h
  | some p =>
    cases o₂ with
    | none => simp [Option.map] at h
    | some q =>
      right
      refine ⟨p, q, rfl, rfl, ?_⟩
      simpa using h

theorem getPieceCells_stripP (p : PieceState) :
    getPieceCells (stripP p) = getPieceCells p := rfl

theorem getPieceCells_congr {p₁ p₂ : PieceState}
    (h : stripP p₁ = stripP p₂) : getPieceCells p₁ = getPieceCells p₂ := by
  rw [← getPieceCells_stripP p₁, h, getPieceCells_stripP]

theorem collides_stripP (b : BoardGrid) (p : PieceState) :
    collides b (stripP p) = collides b p := rfl

theorem collides_congr {p₁ p₂ : PieceState} (b : BoardGrid)
    (h : stripP p₁ = stripP p₂) : collides b p₁ = collides b p₂ := by
  rw [← collides_stripP b p₁, h, collides_stripP]

theorem movedPiece_congr {p₁ p₂ : PieceState} (dx dy : Int)
    (h : stripP p₁ = stripP p₂) :
    stripP (movedPiece p₁ dx dy) = stripP (movedPiece p₂ dx dy) := by
  show movedPiece (stripP p₁) dx dy = movedPiece (stripP p₂) dx dy
  rw [h]

theorem kickedPiece_congr {p₁ p₂ : PieceState} (nr : Nat) (dx dy : Int)
    (h : stripP p₁ = stripP p₂) :
    stripP (kickedPiece p₁ nr dx dy) = stripP (kickedPiece p₂ nr dx dy) := by
  show kickedPiece (stripP p₁) nr dx dy = kickedPiece (stripP p₂) nr dx dy
  rw [h]

theorem stripP_type {p₁ p₂ : PieceState} (h : stripP p₁ = stripP p₂) :
    p₁.type = p₂.type := by
  have e := congrArg PieceState.type h
  exact e

theorem stripP_rotation {p₁ p₂ : PieceState} (h : stripP p₁ = stripP p₂) :
    p₁.rotation = p₂.rotation := by
  have e := congrArg PieceState.rotation h
  exact e

theorem stripP_y {p₁ p₂ : PieceState} (h : stripP p₁ = stripP p₂) :
    p₁.y = p₂.y := by
  have e := congrArg PieceState.y h
  exact e

theorem stripS_setActive (s : TetrisState) (q : PieceState) :
    stripS { s with activePiece := some q } =
      { stripS s with activePiece := some (stripP q) } := rfl

theorem pieceMeasure_congr {s₁ s₂ : TetrisState}
    (h : stripS s₁ = stripS s₂) : pieceMeasure s₁ = pieceMeasure s₂ := by
  obtain ⟨-, -, hap, -⟩ := stripS_inj h
  unfold pieceMeasure
  rcases stripP_option_cases hap with ⟨h1, h2⟩ | ⟨p₁, p₂, h1, h2, hpp⟩
  · rw [h1, h2]
  · rw [h1, h2]
    simp only []
    rw [stripP_y hpp]

theorem tryMove_congr {s₁ s₂ : TetrisState} (dx dy : Int)
    (h : stripS s₁ = stripS s₂) :
    (tryMove s₁ dx dy).1 = (tryMove s₂ dx dy).1 ∧
      stripS (tryMove s₁ dx dy).2 = stripS (tryMove s₂ dx dy).2 := by
  obtain ⟨hgs, hb, hap, -⟩ := stripS_inj h
  unfold tryMove
  rcases stripP_option_cases hap with ⟨h1, h2⟩ | ⟨p₁, p₂, h1, h2, hpp⟩
  · rw [h1, h2]
    exact ⟨rfl, h⟩
  · rw [h1, h2]
    simp only []
    by_cases hst : s₂.gameStatus ≠ GameStatus.RUNNING
    · rw [if_pos (hgs.symm ▸ hst), if_pos hst]
      exact ⟨rfl, h⟩
    · rw [if_neg (hgs.symm ▸ hst), if_neg hst]
      have hc := collides_congr s₂.board (movedPiece_congr dx dy hpp)
      by_cases hcol : collides s₂.board (movedPiece p₂ dx dy) = true
      · have hcol1 : collides s₁.board (movedPiece p₁ dx dy) = true := by
          rw [hb, hc]
          exact hcol
        rw [if_pos hcol1, if_pos hcol]
        exact ⟨rfl, h⟩
      · have hcol1 : ¬ collides s₁.board (movedPiece p₁ dx dy) = true := by
          rw [hb, hc]
          exact hcol
        rw [if_neg hcol1, if_neg hcol]
        refine ⟨rfl, ?_⟩
        simp only []
        rw [stripS_setActive, stripS_setActive, h, movedPiece_congr dx dy hpp]

theorem tryRotate_congr {s₁ s₂ : TetrisState}
    (h : stripS s₁ = stripS s₂) :
    (tryRotate s₁).1 = (tryRotate s₂).1 ∧
      stripS (tryRotate s₁).2 = stripS (tryRotate s₂).2 := by
  obtain ⟨hgs, hb, hap, -⟩ := stripS_inj h
  unfold tryRotate
  rcases stripP_option_cases hap with ⟨h1, h2⟩ | ⟨p₁, p₂, h1, h2, hpp⟩
  · rw [h1, h2]
    exact ⟨rfl, h⟩
  · rw [h1, h2]
    simp only []
    by_cases hst : s₂.gameStatus ≠ GameStatus.RUNNING
    · rw [if_pos (hgs.symm ▸ hst), if_pos hst]
      exact ⟨rfl, h⟩
    · rw [if_neg (hgs.symm ▸ hst), if_neg hst]
      rw [tryKicks_eq_find, tryKicks_eq_find]
      have hrot := stripP_rotation hpp
      have hpred :
          (fun o : Int × Int => !collides s₁.board
            (kickedPiece p₁ ((p₁.rotation + 1) % 4) o.1 o.2)) =
          (fun o : Int × Int => !collides s₂.board
            (kickedPiece p₂ ((p₂.rotation + 1) % 4) o.1 o.2)) := by
        funext o
        rw [hb, hrot, collides_congr s₂.board
          (kickedPiece_congr ((p₂.rotation + 1) % 4) o.1 o.2 hpp)]
      rw [hpred]
      cases hf : WALL_KICK_OFFSETS.find? (fun o => !collides s₂.board
          (kickedPiece p₂ ((p₂.rotation + 1) % 4) o.1 o.2)) with
      | none => exact ⟨rfl, h⟩
      | some o =>
        refine ⟨rfl, ?_⟩
        simp only []
        rw [hrot, stripS_setActive, stripS_setActive, h,
          kickedPiece_congr ((p₂.rotation + 1) % 4) o.1 o.2 hpp]

theorem stripS_active_none {s : TetrisState} (hp : s.activePiece = none) :
    (stripS s).activePiece = none := by
  show Option.map stripP s.activePiece = _
  rw [hp]
  rfl

theorem stripS_active_some {s : TetrisState} {p : PieceState}
    (hp : s.activePiece = some p) :
    (stripS s).activePiece = some (stripP p) := by
  show Option.map stripP s.activePiece = _
  rw [hp]
  rfl

theorem stripS_next_none {s : TetrisState} (hn : s.nextPiece = none) :
    (stripS s).nextPiece = none := by
  show Option.map stripP s.nextPiece = _
  rw [hn]
  rfl

theorem stripS_next_some {s : TetrisState} {n : PieceState}
    (hn : s.nextPiece = some n) :
    (stripS s).nextPiece = some (stripP n) := by
  show Option.map stripP s.nextPiece = _
  rw [hn]
  rfl

theorem stripS_gameStatus (s : TetrisState) :
    (stripS s).gameStatus = s.gameStatus := rfl

theorem stripS_board (s : TetrisState) : (stripS s).board = s.board := rfl

theorem stripS_fx (s : TetrisState) :
    (stripS s).lineClearFxRows = s.lineClearFxRows := rfl

theorem stripS_accV (s : TetrisState) (v : Nat) :
    stripS { s with gravityAccumulatorMs := v } =
      { stripS s with gravityAccumulatorMs := v } := rfl

theorem moved_strip (p : PieceState) (dx dy : Int) :
    movedPiece (stripP p) dx dy = stripP (movedPiece p dx dy) := rfl

theorem kicked_strip (p : PieceState) (nr : Nat) (dx dy : Int) :
    kickedPiece (stripP p) nr dx dy = stripP (kickedPiece p nr dx dy) := rfl

theorem mapStrip_idem (o : Option PieceState) :
    Option.map stripP (Option.map stripP o) = Option.map stripP o := by
  cases o <;> rfl

theorem stripS_idem (s : TetrisState) : stripS (stripS s) = stripS s := by
  unfold stripS
  simp only [mapStrip_idem]

/-! Each operation commutes with `stripS` (the canonical id-free run): the
booleans, clear results and RNG values produced are literally those of the
original run, and the states agree after stripping.  Operations that mint
ids take an arbitrary counter on the canonical side. -/

theorem tryMove_strip (s : TetrisState) (dx dy : Int) :
    tryMove (stripS s) dx dy =
      ((tryMove s dx dy).1, stripS (tryMove s dx dy).2) := by
  unfold tryMove
  cases hp : s.activePiece with
  | none =>
    rw [stripS_active_none hp]
  | some p =>
    rw [stripS_active_some hp]
    simp only []
    rw [stripS_gameStatus, stripS_board, moved_strip, collides_stripP]
    by_cases hst : s.gameStatus ≠ GameStatus.RUNNING
    · simp only [if_pos hst]
    · simp only [if_neg hst]
      by_cases hcol : collides s.board (movedPiece p dx dy) = true
      · simp only [if_pos hcol]
      · simp only [if_neg hcol]
        rfl

theorem merge_strip (s : TetrisState) (nowMs : Int) :
    mergeAndClearLines (stripS s) nowMs =
      ((mergeAndClearLines s nowMs).1,
        stripS (mergeAndClearLines s nowMs).2) := by
  unfold mergeAndClearLines
  cases hp : s.activePiece with
  | none =>
    rw [stripS_active_none hp]
  | some p =>
    rw [stripS_active_some hp]
    simp only []
    rw [stripS_board, getPieceCells_stripP]
    have htp : (stripP p).type = p.type := rfl
    rw [htp]
    by_cases hful : findFullRows ((getPieceCells p).foldl
        (fun (b : BoardGrid) c =>
          if 0 ≤ c.2 ∧ c.2 < (BOARD_HEIGHT : Int) ∧ 0 ≤ c.1 ∧
              c.1 < (BOARD_WIDTH : Int)
          then updateCell b c.2.toNat c.1.toNat p.type
          else b) s.board) = []
    · simp only [if_pos hful]
      rfl
    · simp only [if_neg hful]
      rw [applyLineClearScoring_eq, applyLineClearScoring_eq]
      rfl

theorem spawn_strip (s : TetrisState) (r cnt cnt' : Nat) :
    ((spawnNextPiece (stripS s) r cnt').1.map stripP,
      stripS (spawnNextPiece (stripS s) r cnt').2.1,
      (spawnNextPiece (stripS s) r cnt').2.2.1) =
    ((spawnNextPiece s r cnt).1.map stripP,
      stripS (spawnNextPiece s r cnt).2.1,
      (spawnNextPiece s r cnt).2.2.1) := by
  unfold spawnNextPiece
  cases hn : s.nextPiece with
  | none =>
    rw [stripS_next_none hn]
    rfl
  | some n =>
    rw [stripS_next_some hn]
    rfl

theorem finalize_strip (s : TetrisState) :
    finalizeLineClear (stripS s) = stripS (finalizeLineClear s) := by
  unfold finalizeLineClear
  cases hfx : s.lineClearFxRows with
  | none =>
    have hfx2 : (stripS s).lineClearFxRows = none := hfx
    rw [hfx2]
  | some rows =>
    have hfx2 : (stripS s).lineClearFxRows = some rows := hfx
    rw [hfx2]
    simp only []
    by_cases hnil : rows = []
    · simp only [if_pos hnil]
    · simp only [if_neg hnil]
      rfl

theorem fillRow_strip (s : TetrisState) (y : Int) :
    fillRow (stripS s) y = stripS (fillRow s y) := by
  unfold fillRow
  by_cases hy : y < 0 ∨ (BOARD_HEIGHT : Int) ≤ y
  · simp only [if_pos hy]
  · simp only [if_neg hy]
    rfl

theorem pieceMeasure_strip (s : TetrisState) :
    pieceMeasure (stripS s) = pieceMeasure s := by
  unfold pieceMeasure
  cases hp : s.activePiece with
  | none => rw [stripS_active_none hp]
  | some p =>
    rw [stripS_active_some hp]
    rfl

theorem lockTail_strip (t : TetrisState) (r cnt cnt' : Nat)
    (res : LineClearResult) :
    (lockTail (stripS t) r cnt' res).1 = (lockTail t r cnt res).1 ∧
    stripS (lockTail (stripS t) r cnt' res).2.1 =
      stripS (lockTail t r cnt res).2.1 ∧
    (lockTail (stripS t) r cnt' res).2.2.1 = (lockTail t r cnt res).2.2.1 := by
  unfold lockTail
  rw [stripS_fx, stripS_board]
  by_cases hfx : t.lineClearFxRows.getD [] ≠ []
  · simp only [if_pos hfx]
    exact ⟨by trivial, stripS_idem t, by trivial⟩
  · simp only [if_neg hfx]
    by_cases htop : stackReachedTop t.board = true
    · simp only [if_pos htop]
      refine ⟨by trivial, ?_, by trivial⟩
      have hgoal :
          stripS
              { stripS t with
                gameStatus := GameStatus.GAME_OVER, activePiece := none } =
            stripS
              { t with
                gameStatus := GameStatus.GAME_OVER, activePiece := none } := by
        simp only [stripS, mapStrip_idem]
      exact hgoal
    · simp only [if_neg htop]
      obtain ⟨p₁, n₁, r₁, c₁, hsp₁, -, -, -⟩ :=
        spawnNextPiece_char (stripS t) r cnt'
      obtain ⟨p₂, n₂, r₂, c₂, hsp₂, -, -, -⟩ := spawnNextPiece_char t r cnt
      have hspawn := spawn_strip t r cnt cnt'
      rw [hsp₁, hsp₂] at hspawn
      have hpp : stripP p₁ = stripP p₂ := by
        have e := congrArg (fun x => x.1) hspawn
        simpa using e
      have hss :
          stripS
              { stripS t with
                nextPiece := some n₁, activePiece := some p₁ } =
            stripS
              { t with
                nextPiece := some n₂, activePiece := some p₂ } := by
        have e := congrArg (fun x => x.2.1) hspawn
        simpa using e
      have hrr : r₁ = r₂ := by
        have e := congrArg (fun x => x.2.2) hspawn
        simpa using e
      rw [hsp₁, hsp₂]
      simp only []
      have hcc :
          collides
              ({ stripS t with
                nextPiece := some n₁, activePiece := some p₁ } :
                TetrisState).board p₁ =
            collides
              ({ t with
                nextPiece := some n₂, activePiece := some p₂ } :
                TetrisState).board p₂ := by
        show collides t.board p₁ = collides t.board p₂
        exact collides_congr t.board hpp
      rw [hcc]
      by_cases hcol :
          collides
            ({ t with
              nextPiece := some n₂, activePiece := some p₂ } :
              TetrisState).board p₂ = true
      · simp only [if_pos hcol]
        refine ⟨by trivial, ?_, hrr⟩
        obtain ⟨g1, g2, g3, g4, g5, g6, g7, g8, g9, g10, g11, g12, g13, g14,
          g15, g16, g17⟩ := stripS_inj hss
        exact stripS_ext rfl g2 rfl g4 g5 g6 g7 g8 g9 g10 g11 g12 g13 g14
          g15 g16 g17
      · simp only [if_neg hcol]
        exact ⟨by trivial, hss, hrr⟩

theorem lockPiece_strip (s : TetrisState) (r cnt cnt' : Nat) (nowMs : Int) :
    (lockPiece (stripS s) r cnt' nowMs).1 = (lockPiece s r cnt nowMs).1 ∧
    stripS (lockPiece (stripS s) r cnt' nowMs).2.1 =
      stripS (lockPiece s r cnt nowMs).2.1 ∧
    (lockPiece (stripS s) r cnt' nowMs).2.2.1 =
      (lockPiece s r cnt nowMs).2.2.1 := by
  rw [lockPiece_eq_tail, lockPiece_eq_tail, merge_strip]
  simp only []
  rw [← stripS_accV]
  exact lockTail_strip { (mergeAndClearLines s nowMs).2 with
    gravityAccumulatorMs := 0 } r cnt cnt' (mergeAndClearLines s nowMs).1

theorem hardLoopF_strip (fuel : Nat) : ∀ s : TetrisState,
    hardLoopF fuel (stripS s) = stripS (hardLoopF fuel s) := by
  induction fuel with
  | zero => intro s; rfl
  | succ f ih =>
    intro s
    rw [hardLoopF_succ, hardLoopF_succ, tryMove_strip]
    rcases htm : tryMove s 0 (-1) with ⟨b, s2⟩
    try simp only [htm]
    cases b
    · rfl
    · exact ih s2

theorem hardLoop_strip (s : TetrisState) :
    hardLoop (stripS s) = stripS (hardLoop s) := by
  unfold hardLoop
  rw [pieceMeasure_strip]
  exact hardLoopF_strip _ s

theorem hardDrop_strip (s : TetrisState) (r cnt cnt' : Nat) (nowMs : Int) :
    (hardDrop (stripS s) r cnt' nowMs).1 = (hardDrop s r cnt nowMs).1 ∧
    stripS (hardDrop (stripS s) r cnt' nowMs).2.1 =
      stripS (hardDrop s r cnt nowMs).2.1 ∧
    (hardDrop (stripS s) r cnt' nowMs).2.2.1 =
      (hardDrop s r cnt nowMs).2.2.1 := by
  unfold hardDrop
  cases hp : s.activePiece with
  | none =>
    rw [stripS_active_none hp]
    exact ⟨by trivial, stripS_idem s, by trivial⟩
  | some p =>
    rw [stripS_active_some hp]
    simp only []
    rw [stripS_gameStatus]
    by_cases hst : s.gameStatus ≠ GameStatus.RUNNING
    · simp only [if_pos hst]
      exact ⟨by trivial, stripS_idem s, by trivial⟩
    · simp only [if_neg hst]
      rw [hardLoop_strip]
      exact lockPiece_strip (hardLoop s) r cnt cnt' nowMs

theorem stripS_accP (s : TetrisState) :
    (stripS s).gravityAccumulatorMs = s.gravityAccumulatorMs := rfl

theorem stripS_piece_none_iff (s : TetrisState) :
    (stripS s).activePiece = none ↔ s.activePiece = none := by
  cases hp : s.activePiece
  · rw [stripS_active_none hp]
  · rw [stripS_active_some hp]
    simp

theorem gravLoopF_strip (fuel : Nat) : ∀ (s : TetrisState)
    (interval r cnt cnt' : Nat) (nowMs : Int),
    (gravLoopF fuel (stripS s) interval r cnt' nowMs).1 =
      (gravLoopF fuel s interval r cnt nowMs).1 ∧
    stripS (gravLoopF fuel (stripS s) interval r cnt' nowMs).2.1 =
      stripS (gravLoopF fuel s interval r cnt nowMs).2.1 ∧
    (gravLoopF fuel (stripS s) interval r cnt' nowMs).2.2.1 =
      (gravLoopF fuel s interval r cnt nowMs).2.2.1 := by
  induction fuel with
  | zero =>
    intro s interval r cnt cnt' nowMs
    exact ⟨rfl, stripS_idem s, rfl⟩
  | succ f ih =>
    intro s interval r cnt cnt' nowMs
    rw [gravLoopF_succ, gravLoopF_succ, stripS_accP]
    by_cases hacc : interval ≤ s.gravityAccumulatorMs
    · simp only [if_pos hacc]
      rw [← stripS_accV, tryMove_strip]
      rcases htm : tryMove { s with gravityAccumulatorMs :=
          s.gravityAccumulatorMs - interval } 0 (-1) with ⟨b, s2⟩
      try simp only [htm]
      cases b
      · obtain ⟨l1, l2, l3⟩ := lockPiece_strip { s with gravityAccumulatorMs :=
          s.gravityAccumulatorMs - interval } r cnt cnt' nowMs
        cases hl₁ : lockPiece (stripS { s with gravityAccumulatorMs :=
            s.gravityAccumulatorMs - interval }) r cnt' nowMs with
        | mk res1 rest1 =>
        cases rest1 with
        | mk s31 rest12 =>
        cases rest12 with
        | mk r31 c31 =>
        cases hl₂ : lockPiece { s with gravityAccumulatorMs :=
            s.gravityAccumulatorMs - interval } r cnt nowMs with
        | mk res2 rest2 =>
        cases rest2 with
        | mk s32 rest22 =>
        cases rest22 with
        | mk r32 c32 =>
        rw [hl₁, hl₂] at l1 l2 l3
        exact ⟨congrArg Option.some l1, l2, l3⟩
      · exact ih s2 interval r cnt cnt' nowMs
    · simp only [if_neg hacc]
      exact ⟨by trivial, stripS_idem s, by trivial⟩

theorem tickGravity_strip (s : TetrisState) (d r cnt cnt' : Nat)
    (nowMs : Int) :
    (tickGravity (stripS s) d r cnt' nowMs).1 =
      (tickGravity s d r cnt nowMs).1 ∧
    stripS (tickGravity (stripS s) d r cnt' nowMs).2.1 =
      stripS (tickGravity s d r cnt nowMs).2.1 ∧
    (tickGravity (stripS s) d r cnt' nowMs).2.2.1 =
      (tickGravity s d r cnt nowMs).2.2.1 := by
  unfold tickGravity gravLoop
  have hguard : ((stripS s).gameStatus ≠ GameStatus.RUNNING ∨
      (stripS s).activePiece = none) ↔
      (s.gameStatus ≠ GameStatus.RUNNING ∨ s.activePiece = none) := by
    rw [stripS_gameStatus, stripS_piece_none_iff]
  by_cases hg : s.gameStatus ≠ GameStatus.RUNNING ∨ s.activePiece = none
  · simp only [if_pos hg, if_pos (hguard.mpr hg)]
    exact ⟨by trivial, stripS_idem s, by trivial⟩
  · simp only [if_neg hg, if_neg (fun hc => hg (hguard.mp hc))]
    have hsoft : (stripS s).softDropActive = s.softDropActive := rfl
    have hgi : (stripS s).gravityIntervalMs = s.gravityIntervalMs := rfl
    rw [stripS_accP, ← stripS_accV, hsoft, hgi, pieceMeasure_strip]
    exact gravLoopF_strip _ _ _ _ _ _ _

theorem tickSpawn_strip (s : TetrisState) (r cnt cnt' : Nat) :
    stripS (tickSpawn (stripS s) r cnt').1 = stripS (tickSpawn s r cnt).1 ∧
    (tickSpawn (stripS s) r cnt').2.1 = (tickSpawn s r cnt).2.1 := by
  unfold tickSpawn
  rw [stripS_board]
  by_cases htop : stackReachedTop s.board = true
  · simp only [if_pos htop]
    refine ⟨?_, by trivial⟩
    have hgoal :
        stripS ({ stripS s with gameStatus := GameStatus.GAME_OVER }) =
          stripS ({ s with gameStatus := GameStatus.GAME_OVER }) := by
      simp only [stripS, mapStrip_idem]
    exact hgoal
  · simp only [if_neg htop]
    obtain ⟨p₁, n₁, r₁, c₁, hsp₁, -, -, -⟩ :=
      spawnNextPiece_char (stripS s) r cnt'
    obtain ⟨p₂, n₂, r₂, c₂, hsp₂, -, -, -⟩ := spawnNextPiece_char s r cnt
    have hspawn := spawn_strip s r cnt cnt'
    rw [hsp₁, hsp₂] at hspawn
    have hpp : stripP p₁ = stripP p₂ := by
      have e := congrArg (fun x => x.1) hspawn
      simpa using e
    have hss :
        stripS
            { stripS s with
              nextPiece := some n₁, activePiece := some p₁ } =
          stripS
            { s with
              nextPiece := some n₂, activePiece := some p₂ } := by
      have e := congrArg (fun x => x.2.1) hspawn
      simpa using e
    have hrr : r₁ = r₂ := by
      have e := congrArg (fun x => x.2.2) hspawn
      simpa using e
    rw [hsp₁, hsp₂]
    simp only []
    have hcc :
        collides
            ({ stripS s with
              nextPiece := some n₁, activePiece := some p₁ } :
              TetrisState).board p₁ =
          collides
            ({ s with
              nextPiece := some n₂, activePiece := some p₂ } :
              TetrisState).board p₂ := by
      show collides s.board p₁ = collides s.board p₂
      exact collides_congr s.board hpp
    rw [hcc]
    by_cases hcol :
        collides
          ({ s with
            nextPiece := some n₂, activePiece := some p₂ } :
            TetrisState).board p₂ = true
    · simp only [if_pos hcol]
      refine ⟨?_, hrr⟩
      obtain ⟨g1, g2, g3, g4, g5, g6, g7, g8, g9, g10, g11, g12, g13, g14,
        g15, g16, g17⟩ := stripS_inj hss
      exact stripS_ext rfl g2 rfl g4 g5 g6 g7 g8 g9 g10 g11 g12 g13 g14
        g15 g16 g17
    · simp only [if_neg hcol]
      exact ⟨hss, hrr⟩

end Tetris
